import Mathlib

/-!
# IRSB-watchtower: Evidence Verification & Signal Derivation Engine

Shallow embedding of the watchtower core (packages/watchtower-core) in Lean 4,
together with proofs of the specified invariants.

Embedding conventions:
* TypeScript strings are Lean `String`s; raw file bytes are likewise modelled
  as `String` (the byte-level/UTF-8 distinction plays no role in any claim).
* `node:path` POSIX semantics (`normalize`, `resolve`, `isAbsolute`) are
  embedded explicitly on `List Char` segment lists, following Node's
  `normalizeString` algorithm.
* `String.prototype.localeCompare` is modelled as the code-unit lexicographic
  order on strings (Mathlib's `LinearOrder String`).
* `Array.prototype.sort` with a comparator derived from a total order is
  modelled as `List.insertionSort` of the corresponding relation (the claims
  only concern sortedness and membership, not tie order of distinct records).
* Filesystem access (`existsSync` / `statSync` / `readFileSync`), SHA-256
  hashing and `JSON.parse` are impure or external primitives; they are passed
  in as an explicit environment (`Env`), so every function is pure and
  executable.
-/

namespace Watchtower

/-! ## Node `path` (POSIX) model

The source file `behavior/verifyEvidence.ts` uses `isAbsolute`, `normalize`
and `resolve` from `node:path`.  We embed the POSIX variants on `List Char`.
-/

/-- A path segment: the characters between two `'/'` separators. -/
abbrev Seg := List Char

/-- Split a character list on `'/'` (like `p.split('/')` in JS: keeps empty
segments, so `splitSlash "/a" = ["", "a"]`). -/
def splitSlash : List Char → List Seg
  | [] => [[]]
  | c :: t =>
    if c = '/' then [] :: splitSlash t
    else
      match splitSlash t with
      | [] => [[c]]
      | s :: rest => (c :: s) :: rest

/-- The `".."` segment. -/
def dotdot : Seg := ['.', '.']

/-- Effect of a `".."` segment on the stack of already-emitted segments
(stored in reverse: head = most recent segment): pop a non-`".."` segment;
on top-`".."` or an empty stack, push `".."` only when `allowUp` is true
(relative paths), else drop it. -/
def popSeg (allowUp : Bool) (acc : List Seg) : List Seg :=
  match acc with
  | a :: acc' =>
    if a = dotdot then (if allowUp then dotdot :: a :: acc' else a :: acc')
    else acc'
  | [] => if allowUp then [dotdot] else []

/-- Core of Node's `normalizeString`: process segments left to right with a
stack.  Empty and `"."` segments are dropped; `".."` acts via `popSeg`. -/
def collapseRev (allowUp : Bool) (acc : List Seg) : List Seg → List Seg
  | [] => acc
  | s :: rest =>
    if s = [] ∨ s = ['.'] then collapseRev allowUp acc rest
    else if s = dotdot then collapseRev allowUp (popSeg allowUp acc) rest
    else collapseRev allowUp (s :: acc) rest

/-- Normalized segment list of a path (Node `normalizeString`). -/
def normSegs (allowUp : Bool) (l : List Char) : List Seg :=
  (collapseRev allowUp [] (splitSlash l)).reverse

/-- Join segments with `'/'` (inverse of `splitSlash` on well-formed input). -/
def interSlash : List Seg → List Char
  | [] => []
  | [s] => s
  | s :: t => s ++ '/' :: interSlash t

/-- `path.posix.isAbsolute`. -/
def isAbsoluteL (l : List Char) : Bool :=
  match l with
  | c :: _ => c = '/'
  | [] => false

/-- `path.posix.normalize` rendered to characters (trailing separators are
preserved, as in Node). -/
def normalizeL (l : List Char) : List Char :=
  let abs := isAbsoluteL l
  let trailing := l ≠ [] ∧ l.getLast? = some '/'
  let body := interSlash (normSegs (!abs) l)
  if body = [] then
    if abs then ['/'] else if trailing then ['.', '/'] else ['.']
  else
    (if abs then ['/'] else []) ++ body ++ (if trailing then ['/'] else [])

/-- Boolean prefix test on character lists (JS `String.prototype.startsWith`). -/
def isPref : List Char → List Char → Bool
  | [], _ => true
  | _ :: _, [] => false
  | a :: s, b :: t => a = b && isPref s t

/-- Boolean substring test (JS `String.prototype.includes`). -/
def strContains (pat : List Char) : List Char → Bool
  | [] => isPref pat []
  | l@(_ :: t) => isPref pat l || strContains pat t

/-- Result record of `validateRelativePath` (`{valid, reason?}`). -/
structure PathCheck where
  valid : Bool
  reason : Option String
deriving DecidableEq, Repr

/-- `validateRelativePath` from `behavior/verifyEvidence.ts` (lines 46-61):
rejects empty strings, absolute paths, normalized traversal escapes, and null
bytes, in that order. -/
def validateRelativePath (path : String) : PathCheck :=
  if path.data = [] then ⟨false, some "Path is empty"⟩
  else if isAbsoluteL path.data then ⟨false, some "Absolute paths not allowed"⟩
  else
    let normalized := normalizeL path.data
    if isPref dotdot normalized || strContains ('/' :: dotdot) normalized
        || strContains ('\\' :: dotdot) normalized then
      ⟨false, some "Path traversal not allowed"⟩
    else if path.data.contains (Char.ofNat 0) then
      ⟨false, some "Null bytes not allowed in path"⟩
    else ⟨true, none⟩

/-- Resolve one absolute path string to its normalized segment list
(`".."` above the root is dropped, as in Node). -/
def resolveAbsSegs (l : List Char) : List Seg :=
  normSegs false l

/-- Render a normalized absolute segment list (`path.resolve` output never has
a trailing slash; the root renders as `"/"`). -/
def renderAbs (segs : List Seg) : List Char :=
  '/' :: interSlash segs

/-- `path.resolve(cwd, p)` for a single argument `p`: if `p` is absolute it is
normalized on its own, otherwise it is resolved against the (absolute)
current working directory. -/
def resolveOne (cwd : List Char) (p : List Char) : List Seg :=
  if isAbsoluteL p then resolveAbsSegs p
  else resolveAbsSegs (cwd ++ '/' :: p)

/-- `safeJoin` from `behavior/verifyEvidence.ts` (lines 63-70).  Node's
`process.cwd()` is passed explicitly as `cwd` (an absolute path), making the
function pure.  `resolve(base, rel)` with `base` absolute equals normalizing
`base ++ "/" ++ rel` (or `rel` alone when `rel` is absolute). -/
def safeJoin (cwd : String) (baseDir : String) (relativePath : String) : Option String :=
  let baseSegs := resolveOne cwd.data baseDir.data
  let base := renderAbs baseSegs
  let joinedSegs :=
    if isAbsoluteL relativePath.data then resolveAbsSegs relativePath.data
    else resolveAbsSegs (base ++ '/' :: relativePath.data)
  let joined := renderAbs joinedSegs
  if !(isPref (base ++ ['/']) joined) && joined ≠ base then none
  else some (String.mk joined)

/-- A well-formed segment of a normalized path: non-empty and slash-free. -/
def WfSeg (s : Seg) : Prop := s ≠ [] ∧ '/' ∉ s

/-- Stack-shape invariant during relative normalization: all `".."` segments
sit at the bottom of the stack (end of the reversed list). -/
def DotsShape (acc : List Seg) : Prop :=
  ∃ xs ds, acc = xs ++ ds ∧ (∀ d ∈ ds, d = dotdot) ∧ dotdot ∉ xs

/-! ## JSON values and canonical serialization

`JSON.parse` is external; parsed documents are modelled by the `Json`
inductive (objects keep their key insertion order, so key-order dependence is
expressible).  `canonicalJson` (from `utils/canonical.ts`, not part of the
sources at hand) is modelled from the spec: "object keys sorted
lexicographically at every nesting level, no whitespace, UTF-8 encoding". -/

/-- A parsed JSON document.  Numbers are rationals (the pipeline only ever
produces integers and tenths). -/
inductive Json where
  | null : Json
  | bool (b : Bool) : Json
  | num (q : ℚ) : Json
  | str (s : String) : Json
  | arr (xs : List Json) : Json
  | obj (kvs : List (String × Json)) : Json

/-- JSON string escaping (quote and backslash; the strings this pipeline
serializes contain no control characters). -/
def escChar (c : Char) : List Char :=
  if c = '"' then ['\\', '"'] else if c = '\\' then ['\\', '\\'] else [c]

/-- Render a JSON string literal. -/
def jstr (s : String) : String :=
  "\"" ++ String.mk (s.data.flatMap escChar) ++ "\""

/-- The rational `n/1` in explicit normal form (the explicit constructor
keeps every field a literal, so kernel reduction — `decide` — works). -/
def qInt (n : Int) : ℚ := ⟨n, 1, one_ne_zero, Nat.coprime_one_right _⟩

/-- The weight literal `0.1` in explicit normal form. -/
def q0p1 : ℚ := ⟨1, 10, by norm_num, by norm_num⟩

/-- The weight literal `0.8` (= 4/5 in normal form). -/
def q0p8 : ℚ := ⟨4, 5, by norm_num, by norm_num⟩

/-- JS number → shortest decimal: integers print without a decimal point
(`JSON.stringify(1.0) = "1"`); the only fractional values in this pipeline
are tenths (signal weights 0.1 and 0.8). -/
def renderNum (q : ℚ) : String :=
  if q.den = 1 then toString q.num
  else if 10 % q.den = 0 then
    let t := q.num.natAbs * (10 / q.den)
    (if q < 0 then "-" else "") ++ toString (t / 10) ++ "." ++ toString (t % 10)
  else toString q.num ++ "/" ++ toString q.den

/-- Three-way comparison of character lists: the code-unit lexicographic
order, the model of JS string comparison (`<`, `localeCompare`) used for every
sort in this embedding. -/
def cmpL : List Char → List Char → Ordering
  | [], [] => .eq
  | [], _ :: _ => .lt
  | _ :: _, [] => .gt
  | a :: s, b :: t =>
    if a = b then cmpL s t
    else if a < b then .lt else .gt

def strLt (a b : String) : Prop := cmpL a.data b.data = .lt

instance decStrLt : DecidableRel strLt := fun a b =>
  inferInstanceAs (Decidable (_ = _))

def strLe (a b : String) : Prop := cmpL a.data b.data ≠ .gt

instance decStrLe : DecidableRel strLe := fun a b =>
  inferInstanceAs (Decidable (_ ≠ _))

/-- Key order used by canonical serialization. -/
def keyLe (a b : String × Json) : Prop := strLe a.1 b.1

instance : DecidableRel keyLe := fun a b => decStrLe a.1 b.1

mutual
/-- Recursively sort object keys at every nesting level. -/
def sortJson : Json → Json
  | .null => .null
  | .bool b => .bool b
  | .num q => .num q
  | .str s => .str s
  | .arr xs => .arr (sortJsonList xs)
  | .obj kvs => .obj (List.insertionSort keyLe (sortJsonPairs kvs))

def sortJsonList : List Json → List Json
  | [] => []
  | x :: t => sortJson x :: sortJsonList t

def sortJsonPairs : List (String × Json) → List (String × Json)
  | [] => []
  | (k, v) :: t => (k, sortJson v) :: sortJsonPairs t
end

mutual
/-- Render a JSON value with no whitespace. -/
def renderJson : Json → String
  | .null => "null"
  | .bool b => if b then "true" else "false"
  | .num q => renderNum q
  | .str s => jstr s
  | .arr xs => "[" ++ renderArr xs ++ "]"
  | .obj kvs => "\x7b" ++ renderObj kvs ++ "\x7d"

def renderArr : List Json → String
  | [] => ""
  | [x] => renderJson x
  | x :: t => renderJson x ++ "," ++ renderArr t

def renderObj : List (String × Json) → String
  | [] => ""
  | [(k, v)] => jstr k ++ ":" ++ renderJson v
  | (k, v) :: t => jstr k ++ ":" ++ renderJson v ++ "," ++ renderObj t
end

/-- Modelled from the spec: `canonicalJson` of `utils/canonical.ts` (the file
itself is not among the sources at hand) — canonical serialization with
"object keys sorted lexicographically at every nesting level, no whitespace".
-/
def canonicalJson (j : Json) : String :=
  renderJson (sortJson j)

mutual
/-- Two parsed JSON documents that differ only in the insertion order of
object keys (at any nesting level).  Objects are related through an
intermediate list: pointwise equal keys with related values, then a
permutation; duplicate keys are excluded (JS object literals bind each key
once). -/
inductive JEquiv : Json → Json → Prop where
  | null : JEquiv .null .null
  | bool (b : Bool) : JEquiv (.bool b) (.bool b)
  | num (q : ℚ) : JEquiv (.num q) (.num q)
  | str (s : String) : JEquiv (.str s) (.str s)
  | arr {xs ys : List Json} : JEquivList xs ys → JEquiv (.arr xs) (.arr ys)
  | obj {kvs mid kvs2 : List (String × Json)} :
      JEquivPairs kvs mid →
      mid.Perm kvs2 →
      (kvs.map Prod.fst).Nodup →
      (kvs2.map Prod.fst).Nodup →
      JEquiv (.obj kvs) (.obj kvs2)

/-- Pointwise `JEquiv` on JSON arrays. -/
inductive JEquivList : List Json → List Json → Prop where
  | nil : JEquivList [] []
  | cons {x y : Json} {xs ys : List Json} :
      JEquiv x y → JEquivList xs ys → JEquivList (x :: xs) (y :: ys)

/-- Pointwise key-preserving `JEquiv` on object entry lists. -/
inductive JEquivPairs : List (String × Json) → List (String × Json) → Prop where
  | nil : JEquivPairs [] []
  | cons {k : String} {v1 v2 : Json} {t1 t2 : List (String × Json)} :
      JEquiv v1 v2 → JEquivPairs t1 t2 →
      JEquivPairs ((k, v1) :: t1) ((k, v2) :: t2)
end

/-! ## Manifest schema (`integrations/solverReceiptV0.ts`)

The Zod schema `SolverReceiptV0Schema` becomes an explicit validation
function `validateManifest` returning either the typed manifest or the list
of issue messages (the exact Zod message texts are immaterial; all claims
concern the accept/reject behaviour). -/

/-- `^[a-f0-9]\x7b64\x7d$` — the artifact `sha256` pattern. -/
def isSha256Hex (s : String) : Bool :=
  s.data.length = 64 && s.data.all fun c => c.isDigit || ('a' ≤ c && c ≤ 'f')

/-- One-or-more digits followed by a final `'Z'`. -/
def fracZ : List Char → Bool
  | [] => false
  | ['Z'] => false
  | c :: rest => c.isDigit && fracRestZ rest
where
  fracRestZ : List Char → Bool
    | ['Z'] => true
    | c :: rest => c.isDigit && fracRestZ rest
    | [] => false

/-- Zod's default `z.string().datetime()` pattern:
`^\d\x7b4\x7d-\d\x7b2\x7d-\d\x7b2\x7dT\d\x7b2\x7d:\d\x7b2\x7d:\d\x7b2\x7d(\.\d+)?Z$`. -/
def isIsoDatetime (s : String) : Bool :=
  match s.data with
  | y1 :: y2 :: y3 :: y4 :: '-' :: m1 :: m2 :: '-' :: d1 :: d2 :: 'T'
      :: h1 :: h2 :: ':' :: i1 :: i2 :: ':' :: s1 :: s2 :: rest =>
    (y1.isDigit && y2.isDigit && y3.isDigit && y4.isDigit
      && m1.isDigit && m2.isDigit && d1.isDigit && d2.isDigit
      && h1.isDigit && h2.isDigit && i1.isDigit && i2.isDigit
      && s1.isDigit && s2.isDigit)
    && (rest = ['Z'] || (match rest with
        | '.' :: fr => fracZ fr
        | _ => false))
  | _ => false

structure ArtifactEntry where
  path : String
  sha256 : String
  bytes : Int
  contentType : String
deriving DecidableEq, Repr

structure PolicyDecision where
  allowed : Bool
  reasons : List String
deriving DecidableEq, Repr

inductive ExecStatus where
  | SUCCESS | FAILED | REFUSED
deriving DecidableEq, Repr

structure ExecutionSummary where
  status : ExecStatus
  error : Option String
deriving DecidableEq, Repr

structure SolverMetadata where
  service : String
  serviceVersion : String
  gitCommit : Option String
deriving DecidableEq, Repr

structure SolverReceiptV0 where
  manifestVersion : String
  intentId : String
  runId : String
  jobType : String
  createdAt : String
  artifacts : List ArtifactEntry
  policyDecision : PolicyDecision
  executionSummary : ExecutionSummary
  solver : SolverMetadata
deriving DecidableEq, Repr

/-- Validation outcome: the typed value or a list of issue messages. -/
abbrev V (α : Type) := Except (List String) α

/-- Applicative sequencing that accumulates issues from both sides
(Zod reports all issues, not just the first). -/
def vseq {α β : Type} : V (α → β) → V α → V β
  | .ok f, .ok a => .ok (f a)
  | .error e1, .error e2 => .error (e1 ++ e2)
  | .error e, .ok _ => .error e
  | .ok _, .error e => .error e

/-- JS property access: later duplicate keys win (`JSON.parse` keeps the last
occurrence). -/
def jlookup (k : String) : List (String × Json) → Option Json
  | [] => none
  | (k', v) :: rest =>
    match jlookup k rest with
    | some v' => some v'
    | none => if k' = k then some v else none

def asStr : Json → V String
  | .str s => .ok s
  | _ => .error ["expected string"]

def asBool : Json → V Bool
  | .bool b => .ok b
  | _ => .error ["expected boolean"]

/-- `z.number().int()`. -/
def asInt : Json → V Int
  | .num q => if q.den = 1 then .ok q.num else .error ["expected integer"]
  | _ => .error ["expected number"]

/-- `z.literal(lit)`. -/
def vLit (lit : String) (j : Json) : V String :=
  match j with
  | .str s => if s = lit then .ok s else .error ["invalid literal"]
  | _ => .error ["invalid literal"]

/-- `z.string().regex(/^[a-f0-9]\x7b64\x7d$/)`. -/
def vSha (j : Json) : V String :=
  match j with
  | .str s => if isSha256Hex s then .ok s else .error ["invalid sha256"]
  | _ => .error ["expected string"]

/-- `z.string().datetime()`. -/
def vDatetime (j : Json) : V String :=
  match j with
  | .str s => if isIsoDatetime s then .ok s else .error ["invalid datetime"]
  | _ => .error ["expected string"]

/-- `z.enum(['SUCCESS', 'FAILED', 'REFUSED'])`. -/
def vStatus (j : Json) : V ExecStatus :=
  match j with
  | .str "SUCCESS" => .ok .SUCCESS
  | .str "FAILED" => .ok .FAILED
  | .str "REFUSED" => .ok .REFUSED
  | _ => .error ["invalid status"]

/-- `z.number().int().nonnegative()`. -/
def vNonnegInt (j : Json) : V Int :=
  match asInt j with
  | .ok n => if 0 ≤ n then .ok n else .error ["expected nonnegative"]
  | .error e => .error e

/-- Required object field. -/
def vfield {α : Type} (kvs : List (String × Json)) (name : String)
    (f : Json → V α) : V α :=
  match jlookup name kvs with
  | none => .error [name ++ ": required"]
  | some v => match f v with
    | .ok a => .ok a
    | .error es => .error (es.map fun e => name ++ ": " ++ e)

/-- Optional object field (`.optional()`: absent is fine, `null` is not). -/
def voptional {α : Type} (kvs : List (String × Json)) (name : String)
    (f : Json → V α) : V (Option α) :=
  match jlookup name kvs with
  | none => .ok none
  | some v => match f v with
    | .ok a => .ok (some a)
    | .error es => .error (es.map fun e => name ++ ": " ++ e)

def vList {α : Type} (f : Json → V α) : List Json → V (List α)
  | [] => .ok []
  | x :: t => vseq (vseq (.ok List.cons) (f x)) (vList f t)

/-- `z.array(...)`. -/
def vArray {α : Type} (f : Json → V α) (j : Json) : V (List α) :=
  match j with
  | .arr xs => vList f xs
  | _ => .error ["expected array"]

/-- `ArtifactEntrySchema`. -/
def vArtifact : Json → V ArtifactEntry
  | .obj kvs =>
    vseq (vseq (vseq (vseq (.ok ArtifactEntry.mk)
      (vfield kvs "path" asStr))
      (vfield kvs "sha256" vSha))
      (vfield kvs "bytes" vNonnegInt))
      (vfield kvs "contentType" asStr)
  | _ => .error ["expected object"]

/-- `PolicyDecisionSchema`. -/
def vPolicy : Json → V PolicyDecision
  | .obj kvs =>
    vseq (vseq (.ok PolicyDecision.mk)
      (vfield kvs "allowed" asBool))
      (vfield kvs "reasons" (vArray asStr))
  | _ => .error ["expected object"]

/-- `ExecutionSummarySchema`. -/
def vExec : Json → V ExecutionSummary
  | .obj kvs =>
    vseq (vseq (.ok ExecutionSummary.mk)
      (vfield kvs "status" vStatus))
      (voptional kvs "error" asStr)
  | _ => .error ["expected object"]

/-- `SolverMetadataSchema` (`service` must equal `'irsb-solver'`). -/
def vSolver : Json → V SolverMetadata
  | .obj kvs =>
    vseq (vseq (vseq (.ok SolverMetadata.mk)
      (vfield kvs "service" (vLit "irsb-solver")))
      (vfield kvs "serviceVersion" asStr))
      (voptional kvs "gitCommit" asStr)
  | _ => .error ["expected object"]

/-- `SolverReceiptV0Schema.safeParse`: the full manifest contract.
`manifestVersion` must equal the literal `'0.1.0'`. -/
def validateManifest : Json → V SolverReceiptV0
  | .obj kvs =>
    vseq (vseq (vseq (vseq (vseq (vseq (vseq (vseq (vseq (.ok SolverReceiptV0.mk)
      (vfield kvs "manifestVersion" (vLit "0.1.0")))
      (vfield kvs "intentId" asStr))
      (vfield kvs "runId" asStr))
      (vfield kvs "jobType" asStr))
      (vfield kvs "createdAt" vDatetime))
      (vfield kvs "artifacts" (vArray vArtifact)))
      (vfield kvs "policyDecision" vPolicy))
      (vfield kvs "executionSummary" vExec))
      (vfield kvs "solver" vSolver)
  | _ => .error ["expected object"]

/-- `error.issues.map(i => i.message).join('; ')`. -/
def joinIssues : List String → String
  | [] => ""
  | [e] => e
  | e :: t => e ++ "; " ++ joinIssues t

/-! ## Normalized receipt (`integrations/solverReceiptV0.ts`) -/

structure DeliveredArtifact where
  path : String
  sha256 : String
  bytes : Int
  contentType : String
deriving DecidableEq, Repr

structure NormalizedReceipt where
  receiptId : String
  receiptVersion : String
  intentId : String
  runId : String
  jobType : String
  status : ExecStatus
  manifestPath : String
  manifestSha256 : String
  delivered : List DeliveredArtifact
deriving DecidableEq, Repr

/-- `(a, b) => a.path.localeCompare(b.path)`, modelled as the code-unit
lexicographic order. -/
def artLe (a b : ArtifactEntry) : Prop := strLe a.path b.path

instance : DecidableRel artLe := fun a b => decStrLe a.path b.path

def dartLe (a b : DeliveredArtifact) : Prop := strLe a.path b.path

instance : DecidableRel dartLe := fun a b => decStrLe a.path b.path

/-- `normalizeReceipt(manifest, manifestSha256)`.  The SHA-256 function is an
external primitive and is passed in as `h`. -/
def normalizeReceipt (h : String → String) (manifest : SolverReceiptV0)
    (manifestSha256 : String) : NormalizedReceipt :=
  let delivered : List DeliveredArtifact :=
    (List.insertionSort artLe manifest.artifacts).map fun a =>
      ⟨a.path, a.sha256, a.bytes, a.contentType⟩
  let receiptId := h (canonicalJson (.obj
    [("intentId", .str manifest.intentId),
     ("runId", .str manifest.runId),
     ("jobType", .str manifest.jobType),
     ("manifestSha256", .str manifestSha256)]))
  { receiptId := receiptId
    receiptVersion := manifest.manifestVersion
    intentId := manifest.intentId
    runId := manifest.runId
    jobType := manifest.jobType
    status := manifest.executionSummary.status
    manifestPath := "evidence/manifest.json"
    manifestSha256 := manifestSha256
    delivered := delivered }

/-! ## Signals (`schemas`, `behavior/deriveBehaviorSignals.ts`) -/

structure EvidenceLink where
  type : String
  ref : String
deriving DecidableEq, Repr

inductive Severity where
  | LOW | HIGH | CRITICAL
deriving DecidableEq, Repr

structure Signal where
  signalId : String
  severity : Severity
  weight : ℚ
  observedAt : Nat
  evidence : List EvidenceLink
deriving DecidableEq, Repr

/-- Evidence order `(type, ref)` used by `sortEvidence`. -/
def evLe (a b : EvidenceLink) : Prop :=
  strLt a.type b.type ∨ (a.type = b.type ∧ strLe a.ref b.ref)

instance : DecidableRel evLe := fun a b =>
  inferInstanceAs (Decidable (_ ∨ (_ ∧ _)))

/-- Modelled from the spec: `sortEvidence` of `utils/sort.ts` (the file itself
is not among the sources at hand) — "Evidence links are deduplicated/sorted
before inclusion in signals (sort by `(type, ref)`)". -/
def sortEvidence (l : List EvidenceLink) : List EvidenceLink :=
  (List.insertionSort evLe l).dedup

/-! ## Verification failures (`behavior/verifyEvidence.ts`) -/

inductive FailureCode where
  | ARTIFACT_HASH_MISMATCH
  | ARTIFACT_NOT_FOUND
  | ARTIFACT_SIZE_MISMATCH
  | ARTIFACT_TOO_LARGE
  | DELIVERED_MISMATCH
  | MANIFEST_HASH_MISMATCH
  | MANIFEST_NOT_FOUND
  | MANIFEST_PARSE_FAIL
  | MANIFEST_READ_ERROR
  | MANIFEST_SCHEMA_INVALID
  | MANIFEST_TOO_LARGE
  | UNSAFE_PATH
deriving DecidableEq, Repr

/-- The failure code's string value (the TS type is a union of string
literals; sorting compares these strings). -/
def codeStr : FailureCode → String
  | .ARTIFACT_HASH_MISMATCH => "ARTIFACT_HASH_MISMATCH"
  | .ARTIFACT_NOT_FOUND => "ARTIFACT_NOT_FOUND"
  | .ARTIFACT_SIZE_MISMATCH => "ARTIFACT_SIZE_MISMATCH"
  | .ARTIFACT_TOO_LARGE => "ARTIFACT_TOO_LARGE"
  | .DELIVERED_MISMATCH => "DELIVERED_MISMATCH"
  | .MANIFEST_HASH_MISMATCH => "MANIFEST_HASH_MISMATCH"
  | .MANIFEST_NOT_FOUND => "MANIFEST_NOT_FOUND"
  | .MANIFEST_PARSE_FAIL => "MANIFEST_PARSE_FAIL"
  | .MANIFEST_READ_ERROR => "MANIFEST_READ_ERROR"
  | .MANIFEST_SCHEMA_INVALID => "MANIFEST_SCHEMA_INVALID"
  | .MANIFEST_TOO_LARGE => "MANIFEST_TOO_LARGE"
  | .UNSAFE_PATH => "UNSAFE_PATH"

structure VerificationFailure where
  code : FailureCode
  message : String
  path : Option String
deriving DecidableEq, Repr

structure VerificationResult where
  ok : Bool
  failures : List VerificationFailure
  evidenceLinks : List EvidenceLink
deriving DecidableEq, Repr

/-! ## Signal deriver (`behavior/deriveBehaviorSignals.ts`) -/

structure SignalDef where
  signalId : String
  severity : Severity
  weight : ℚ
  codes : List FailureCode
deriving DecidableEq, Repr

def SIGNAL_DEFS : List SignalDef :=
  [⟨"BE_MANIFEST_NOT_FOUND", .CRITICAL, qInt 1, [.MANIFEST_NOT_FOUND]⟩,
   ⟨"BE_MANIFEST_HASH_MISMATCH", .CRITICAL, qInt 1, [.MANIFEST_HASH_MISMATCH]⟩,
   ⟨"BE_MANIFEST_PARSE_FAIL", .HIGH, q0p8, [.MANIFEST_PARSE_FAIL, .MANIFEST_READ_ERROR]⟩,
   ⟨"BE_MANIFEST_SCHEMA_INVALID", .HIGH, q0p8, [.MANIFEST_SCHEMA_INVALID]⟩,
   ⟨"BE_MANIFEST_TOO_LARGE", .HIGH, q0p8, [.MANIFEST_TOO_LARGE]⟩,
   ⟨"BE_ARTIFACT_MISSING", .CRITICAL, qInt 1, [.ARTIFACT_NOT_FOUND]⟩,
   ⟨"BE_ARTIFACT_HASH_MISMATCH", .CRITICAL, qInt 1, [.ARTIFACT_HASH_MISMATCH]⟩,
   ⟨"BE_ARTIFACT_SIZE_MISMATCH", .HIGH, q0p8, [.ARTIFACT_SIZE_MISMATCH]⟩,
   ⟨"BE_UNSAFE_PATH", .CRITICAL, qInt 1, [.UNSAFE_PATH]⟩,
   ⟨"BE_DELIVERED_MISMATCH", .CRITICAL, qInt 1, [.DELIVERED_MISMATCH]⟩]

/-- The body of the signal-definition loop of `deriveBehaviorSignals`: the
signal one `SignalDef` contributes, if any.  The `failuresByCode` map
followed by `def.codes.flatMap(code => map.get(code))` is equivalently
embedded as a filter of the failures list per code, in `def.codes` order. -/
def signalOfDef (result : VerificationResult) (observedAt : Nat)
    (baseEvidence : List EvidenceLink) (d : SignalDef) : Option Signal :=
  let matchingFailures :=
    d.codes.flatMap fun c => result.failures.filter fun f => f.code = c
  if matchingFailures.isEmpty then none
  else
    let failureEvidence : List EvidenceLink :=
      matchingFailures.filterMap fun f => f.path.map fun p => ⟨"failurePath", p⟩
    some { signalId := d.signalId
           severity := d.severity
           weight := d.weight
           observedAt := observedAt
           evidence := sortEvidence (baseEvidence ++ failureEvidence) }

/-- `deriveBehaviorSignals(result, receipt, observedAt)`. -/
def deriveBehaviorSignals (result : VerificationResult)
    (receipt : NormalizedReceipt) (observedAt : Nat) : List Signal :=
  let baseEvidence : List EvidenceLink :=
    [⟨"receiptId", receipt.receiptId⟩, ⟨"manifestSha256", receipt.manifestSha256⟩]
  if result.ok then
    [{ signalId := "BE_VERIFIED_OK"
       severity := .LOW
       weight := q0p1
       observedAt := observedAt
       evidence := sortEvidence (baseEvidence ++ result.evidenceLinks) }]
  else
    SIGNAL_DEFS.filterMap (signalOfDef result observedAt baseEvidence)

/-! ## Evidence verifier (`behavior/verifyEvidence.ts`) -/

/-- What the filesystem holds at a given absolute path: nothing, or a file
whose `stat` and full read each either succeed or raise.  (`statRes` is the
size reported by `statSync`; `readRes` the content from `readFileSync` —
kept separate because the source consults both.) -/
inductive FsEntry where
  | absent
  | file (statRes : Option Nat) (readRes : Option String)

/-- The impure primitives `verifyEvidence` touches, passed explicitly:
`process.cwd()`, the filesystem, `sha256Hex` and `JSON.parse`. -/
structure Env where
  cwd : String
  fs : String → FsEntry
  sha256Hex : String → String
  parseJson : String → Option Json

structure VerifyOptions where
  maxManifestBytes : Option Nat
  maxArtifactBytes : Option Nat
deriving DecidableEq, Repr

def DEFAULT_MAX_MANIFEST_BYTES : Nat := 2 * 1024 * 1024

def DEFAULT_MAX_ARTIFACT_BYTES : Nat := 10 * 1024 * 1024

/-- The body of the per-artifact loop (step 8 of `verifyEvidence`): returns
the failures recorded for this artifact and the evidence link appended when
the artifact was successfully read and hashed.  A `continue` in the source is
an early return of the accumulated lists. -/
def checkArtifact (env : Env) (runDir : String) (maxArtifactBytes : Nat)
    (artifact : DeliveredArtifact) :
    List VerificationFailure × List EvidenceLink :=
  let artPathCheck := validateRelativePath artifact.path
  if !artPathCheck.valid then
    ([⟨.UNSAFE_PATH, "Artifact path unsafe: " ++ artPathCheck.reason.getD "",
       some artifact.path⟩], [])
  else
    match safeJoin env.cwd runDir artifact.path with
    | none =>
      ([⟨.UNSAFE_PATH, "Artifact path escapes run directory", some artifact.path⟩], [])
    | some artAbsPath =>
      match env.fs artAbsPath with
      | .absent =>
        ([⟨.ARTIFACT_NOT_FOUND, "Artifact not found: " ++ artifact.path,
           some artifact.path⟩], [])
      | .file statRes readRes =>
        match statRes with
        | none =>
          ([⟨.ARTIFACT_NOT_FOUND, "Cannot stat artifact: " ++ artifact.path,
             some artifact.path⟩], [])
        | some artSize =>
          if artSize > maxArtifactBytes then
            ([⟨.ARTIFACT_TOO_LARGE,
               "Artifact " ++ toString artSize ++ " bytes exceeds limit "
                 ++ toString maxArtifactBytes, some artifact.path⟩], [])
          else
            let sizeFailures : List VerificationFailure :=
              if (artSize : Int) ≠ artifact.bytes then
                [⟨.ARTIFACT_SIZE_MISMATCH,
                  "Artifact size mismatch for " ++ artifact.path ++ ": expected "
                    ++ toString artifact.bytes ++ ", got " ++ toString artSize,
                  some artifact.path⟩]
              else []
            match readRes with
            | none =>
              (sizeFailures ++ [⟨.ARTIFACT_NOT_FOUND,
                "Cannot read artifact: " ++ artifact.path, some artifact.path⟩], [])
            | some artBytes =>
              let actualArtHash := env.sha256Hex artBytes
              let hashFailures : List VerificationFailure :=
                if actualArtHash ≠ artifact.sha256 then
                  [⟨.ARTIFACT_HASH_MISMATCH,
                    "Artifact hash mismatch for " ++ artifact.path ++ ": expected "
                      ++ artifact.sha256 ++ ", got " ++ actualArtHash,
                    some artifact.path⟩]
                else []
              (sizeFailures ++ hashFailures, [⟨"artifactSha256", artifact.sha256⟩])

def joinComma : List String → String
  | [] => ""
  | [s] => s
  | s :: t => s ++ "," ++ joinComma t

/-- Step 7 of `verifyEvidence`: the sorted manifest artifact paths joined
with `','`. -/
def manifestPathsJoined (m : SolverReceiptV0) : String :=
  joinComma ((List.insertionSort artLe m.artifacts).map fun a => a.path)

/-- Step 7 of `verifyEvidence`: the sorted receipt `delivered` paths joined
with `','`. -/
def deliveredPathsJoined (r : NormalizedReceipt) : String :=
  joinComma ((List.insertionSort dartLe r.delivered).map fun a => a.path)

/-- Steps 1-8 of `verifyEvidence`: the failures and evidence links in
discovery order.  Each early `return buildResult(failures, evidenceLinks)` of
the source is embedded as returning the lists accumulated so far;
`buildResult` is applied once at the single exit of `verifyEvidence`. -/
def verifyCollect (env : Env) (receipt : NormalizedReceipt) (runDir : String)
    (maxManifestBytes maxArtifactBytes : Nat) :
    List VerificationFailure × List EvidenceLink :=
  let baseEvidence : List EvidenceLink :=
    [⟨"receiptId", receipt.receiptId⟩, ⟨"manifestSha256", receipt.manifestSha256⟩]
  let manifestRelPath := receipt.manifestPath
  let pathCheck := validateRelativePath manifestRelPath
  if !pathCheck.valid then
    ([⟨.UNSAFE_PATH, "Manifest path unsafe: " ++ pathCheck.reason.getD "",
       some manifestRelPath⟩], baseEvidence)
  else
    match safeJoin env.cwd runDir manifestRelPath with
    | none =>
      ([⟨.UNSAFE_PATH, "Manifest path escapes run directory", some manifestRelPath⟩],
       baseEvidence)
    | some manifestAbsPath =>
      match env.fs manifestAbsPath with
      | .absent =>
        ([⟨.MANIFEST_NOT_FOUND, "Manifest not found: " ++ manifestRelPath,
           some manifestRelPath⟩], baseEvidence)
      | .file statRes readRes =>
        match statRes with
        | none =>
          ([⟨.MANIFEST_READ_ERROR, "Cannot stat manifest", some manifestRelPath⟩],
           baseEvidence)
        | some manifestSize =>
          if manifestSize > maxManifestBytes then
            ([⟨.MANIFEST_TOO_LARGE,
               "Manifest " ++ toString manifestSize ++ " bytes exceeds limit "
                 ++ toString maxManifestBytes, some manifestRelPath⟩], baseEvidence)
          else
            match readRes with
            | none =>
              ([⟨.MANIFEST_READ_ERROR, "Cannot read manifest", some manifestRelPath⟩],
               baseEvidence)
            | some manifestBytes =>
              let actualManifestHash := env.sha256Hex manifestBytes
              if actualManifestHash ≠ receipt.manifestSha256 then
                ([⟨.MANIFEST_HASH_MISMATCH,
                   "Manifest hash mismatch: expected " ++ receipt.manifestSha256
                     ++ ", got " ++ actualManifestHash, some manifestRelPath⟩],
                 baseEvidence)
              else
                match env.parseJson manifestBytes with
                | none =>
                  ([⟨.MANIFEST_PARSE_FAIL, "Manifest is not valid JSON",
                     some manifestRelPath⟩], baseEvidence)
                | some manifestObj =>
                  match validateManifest manifestObj with
                  | .error issues =>
                    ([⟨.MANIFEST_SCHEMA_INVALID,
                       "Manifest schema invalid: " ++ joinIssues issues,
                       some manifestRelPath⟩], baseEvidence)
                  | .ok manifest =>
                    let dmFailures : List VerificationFailure :=
                      if manifestPathsJoined manifest ≠ deliveredPathsJoined receipt then
                        [⟨.DELIVERED_MISMATCH,
                          "Receipt delivered[] does not match manifest artifacts", none⟩]
                      else []
                    let artResults :=
                      receipt.delivered.map (checkArtifact env runDir maxArtifactBytes)
                    (dmFailures ++ (artResults.map Prod.fst).flatten,
                     baseEvidence ++ (artResults.map Prod.snd).flatten)

/-- Failure order `(code, path ?? "")` used by `buildResult`. -/
def fLe (a b : VerificationFailure) : Prop :=
  strLt (codeStr a.code) (codeStr b.code)
    ∨ (codeStr a.code = codeStr b.code ∧ strLe (a.path.getD "") (b.path.getD ""))

instance : DecidableRel fLe := fun a b =>
  inferInstanceAs (Decidable (_ ∨ (_ ∧ _)))

/-- `buildResult(failures, evidenceLinks)`: sort failures deterministically by
`(code, path)` and derive `ok`. -/
def buildResult (failures : List VerificationFailure)
    (evidenceLinks : List EvidenceLink) : VerificationResult :=
  let sorted := List.insertionSort fLe failures
  { ok := sorted.length == 0
    failures := sorted
    evidenceLinks := evidenceLinks }

/-- `verifyEvidence(receipt, runDir, options?)`. -/
def verifyEvidence (env : Env) (receipt : NormalizedReceipt) (runDir : String)
    (options : Option VerifyOptions) : VerificationResult :=
  let maxManifestBytes :=
    (options.bind fun o => o.maxManifestBytes).getD DEFAULT_MAX_MANIFEST_BYTES
  let maxArtifactBytes :=
    (options.bind fun o => o.maxArtifactBytes).getD DEFAULT_MAX_ARTIFACT_BYTES
  let collected := verifyCollect env receipt runDir maxManifestBytes maxArtifactBytes
  buildResult collected.1 collected.2

/-! ## Ingest pipeline core (`behavior/ingestReceipt.ts`)

`ingestReceipt(db, agentId, receiptPath, runDir?)` reads the receipt file,
computes `manifestSha256`, parses/validates, normalizes, verifies, derives
signals, sorts them and computes the snapshot id; it then talks to the store
and the scorer (out of scope).  The pure computation from the raw bytes to
`(receiptId, signals, snapshotId)` is embedded here; the raw file content and
the run directory are arguments. -/

def severityStr : Severity → String
  | .LOW => "LOW"
  | .HIGH => "HIGH"
  | .CRITICAL => "CRITICAL"

/-- A `Signal` record as the JSON value `JSON`-serialization sees it. -/
def signalToJson (s : Signal) : Json :=
  .obj [("signalId", .str s.signalId),
        ("severity", .str (severityStr s.severity)),
        ("weight", .num s.weight),
        ("observedAt", .num (qInt s.observedAt)),
        ("evidence", .arr (s.evidence.map fun e =>
          .obj [("type", .str e.type), ("ref", .str e.ref)]))]

/-- Modelled from the spec: `sortSignals` of `utils/sort.ts` (the file itself
is not among the sources at hand) — "stable order by `signalId` then
`observedAt` then serialized evidence, or equivalent total order". -/
def sigLe (a b : Signal) : Prop :=
  strLt a.signalId b.signalId
    ∨ (a.signalId = b.signalId
        ∧ (a.observedAt < b.observedAt
            ∨ (a.observedAt = b.observedAt
                ∧ strLe (canonicalJson (.arr (a.evidence.map fun e =>
                    .obj [("type", .str e.type), ("ref", .str e.ref)])))
                  (canonicalJson (.arr (b.evidence.map fun e =>
                    .obj [("type", .str e.type), ("ref", .str e.ref)]))))))

instance : DecidableRel sigLe := fun a b =>
  inferInstanceAs (Decidable (_ ∨ (_ ∧ (_ ∨ (_ ∧ _)))))

def sortSignals (signals : List Signal) : List Signal :=
  List.insertionSort sigLe signals

/-- `safeParseManifest(rawBytes)` from `behavior/ingestReceipt.ts`. -/
def safeParseManifest (env : Env) (raw : String) : Except String SolverReceiptV0 :=
  match env.parseJson raw with
  | none => .error "Invalid JSON"
  | some obj =>
    match validateManifest obj with
    | .error issues => .error (joinIssues issues)
    | .ok m => .ok m

/-- The exact string fed to `sha256Hex` to produce the snapshot id:
`canonicalJson({agentId, signals})` (step 8 of `ingestReceipt`). -/
def snapshotIdInput (agentId : String) (signals : List Signal) : String :=
  canonicalJson (.obj [("agentId", .str agentId),
                       ("signals", .arr (signals.map signalToJson))])

structure IngestCore where
  receiptId : String
  snapshotInput : String
  snapshotId : String
  ok : Bool
  signals : List Signal
deriving DecidableEq, Repr

/-- The pure core of `ingestReceipt`: from the raw manifest file content to
the receipt id, sorted signals and snapshot id (storage and scoring are the
out-of-scope collaborators). -/
def ingestReceiptCore (env : Env) (agentId : String) (raw : String)
    (runDir : String) (observedAt : Nat) : IngestCore :=
  let manifestSha256 := env.sha256Hex raw
  match safeParseManifest env raw with
  | .error e =>
    let receiptId := env.sha256Hex (canonicalJson (.obj
      [("intentId", .str "unknown"),
       ("runId", .str "unknown"),
       ("jobType", .str "unknown"),
       ("manifestSha256", .str manifestSha256)]))
    let signals := sortSignals
      [{ signalId := "BE_RECEIPT_SCHEMA_INVALID"
         severity := .HIGH
         weight := q0p8
         observedAt := observedAt
         evidence := [⟨"manifestSha256", manifestSha256⟩, ⟨"parseError", e⟩] }]
    let si := snapshotIdInput agentId signals
    ⟨receiptId, si, env.sha256Hex si, false, signals⟩
  | .ok m =>
    let receipt := normalizeReceipt env.sha256Hex m manifestSha256
    let result := verifyEvidence env receipt runDir none
    let signals := sortSignals (deriveBehaviorSignals result receipt observedAt)
    let si := snapshotIdInput agentId signals
    ⟨receipt.receiptId, si, env.sha256Hex si, result.ok, signals⟩

/-! ## Concrete fixtures used by witnesses and counterexamples -/

/-- A normalized receipt with no delivered artifacts. -/
def wReceipt : NormalizedReceipt :=
  ⟨"rid", "0.1.0", "i1", "r1", "diag", .SUCCESS, "evidence/manifest.json", "msha", []⟩

/-- A fully successful verification result. -/
def wOkResult : VerificationResult := ⟨true, [], []⟩

/-- The `BE_VERIFIED_OK` signal derived from `wOkResult` and `wReceipt`. -/
def wOkSignal : Signal :=
  ⟨"BE_VERIFIED_OK", .LOW, q0p1, 5,
   [⟨"manifestSha256", "msha"⟩, ⟨"receiptId", "rid"⟩]⟩

/-- A result with two `ARTIFACT_HASH_MISMATCH` failures on the same path
(as produced when `delivered` lists the same artifact path twice and the
file's hash mismatches). -/
def wDupResult : VerificationResult :=
  ⟨false,
   [⟨.ARTIFACT_HASH_MISMATCH, "m1", some "a.txt"⟩,
    ⟨.ARTIFACT_HASH_MISMATCH, "m2", some "a.txt"⟩],
   []⟩

/-- A result with two `ARTIFACT_HASH_MISMATCH` failures on two distinct
paths. -/
def wDistinctResult : VerificationResult :=
  ⟨false,
   [⟨.ARTIFACT_HASH_MISMATCH, "m1", some "a.txt"⟩,
    ⟨.ARTIFACT_HASH_MISMATCH, "m2", some "b.txt"⟩],
   []⟩

/-- `wManifestJson` with its two leading top-level keys inserted in the
opposite order. -/
def wManifestJsonPerm : Json :=
  .obj [("intentId", .str "i1"),
        ("manifestVersion", .str "0.1.0"),
        ("runId", .str "r1"),
        ("jobType", .str "diag"),
        ("createdAt", .str "2025-01-15T12:00:00Z"),
        ("artifacts", .arr []),
        ("policyDecision", .obj [("allowed", .bool true), ("reasons", .arr [])]),
        ("executionSummary", .obj [("status", .str "SUCCESS")]),
        ("solver", .obj [("service", .str "irsb-solver"),
                         ("serviceVersion", .str "1.0.0")])]

/-- A schema-valid manifest document with an empty artifact list. -/
def wManifestJson : Json :=
  .obj [("manifestVersion", .str "0.1.0"),
        ("intentId", .str "i1"),
        ("runId", .str "r1"),
        ("jobType", .str "diag"),
        ("createdAt", .str "2025-01-15T12:00:00Z"),
        ("artifacts", .arr []),
        ("policyDecision", .obj [("allowed", .bool true), ("reasons", .arr [])]),
        ("executionSummary", .obj [("status", .str "SUCCESS")]),
        ("solver", .obj [("service", .str "irsb-solver"),
                         ("serviceVersion", .str "1.0.0")])]

/-- The typed manifest corresponding to `wManifestJson`. -/
def wManifest : SolverReceiptV0 :=
  ⟨"0.1.0", "i1", "r1", "diag", "2025-01-15T12:00:00Z", [],
   ⟨true, []⟩, ⟨.SUCCESS, none⟩, ⟨"irsb-solver", "1.0.0", none⟩⟩

/-- What the spec's schema contract promises about any document the
validator accepts: the document is an object whose `manifestVersion` is the
exact supported literal, whose `artifacts`/`executionSummary`/`solver`
fields validate to the returned record's fields, and the returned record
fully conforms (sha256 pattern, non-negative integer bytes, status among the
three literals, fixed solver service) — never a partially accepted object. -/
def ManifestOkSpec (j : Json) (m : SolverReceiptV0) : Prop :=
  (∃ kvs, j = .obj kvs
    ∧ jlookup "manifestVersion" kvs = some (.str "0.1.0")
    ∧ vfield kvs "artifacts" (vArray vArtifact) = .ok m.artifacts
    ∧ vfield kvs "executionSummary" vExec = .ok m.executionSummary
    ∧ vfield kvs "solver" vSolver = .ok m.solver)
  ∧ m.manifestVersion = "0.1.0"
  ∧ (∀ a ∈ m.artifacts, isSha256Hex a.sha256 = true ∧ 0 ≤ a.bytes)
  ∧ isIsoDatetime m.createdAt = true
  ∧ (m.executionSummary.status = .SUCCESS ∨ m.executionSummary.status = .FAILED
      ∨ m.executionSummary.status = .REFUSED)
  ∧ m.solver.service = "irsb-solver"

/-- An environment whose `JSON.parse` always fails (any byte-identical
invalid manifest file).  The hash function is injective (identity), standing
in for SHA-256. -/
def wEnvInvalid : Env :=
  ⟨"/", fun _ => .absent, fun s => s, fun _ => none⟩

/-- A delivered artifact whose declared size and hash both disagree with the
file at `/run/art.txt` in `wEnvArtifact`. -/
def wArt : DeliveredArtifact := ⟨"art.txt", "aa", 3, "text/plain"⟩

/-- A receipt whose `delivered` list does not match `wManifest`'s (empty)
artifact list. -/
def wReceiptMismatch : NormalizedReceipt :=
  ⟨"rid", "0.1.0", "i1", "r1", "diag", .SUCCESS, "evidence/manifest.json",
   "#MB", [wArt]⟩

/-- Environment with the valid manifest file plus an artifact file whose
size (7) and hash differ from `wArt`'s declared values. -/
def wEnvArtifact : Env :=
  ⟨"/",
   fun p => if p = "/run/evidence/manifest.json" then .file (some 2) (some "MB")
     else if p = "/run/art.txt" then .file (some 7) (some "DATA")
     else .absent,
   fun s => "#" ++ s,
   fun s => if s = "MB" then some wManifestJson else none⟩

/-- An environment holding the file content `"MB"` at
`/run/evidence/manifest.json`, parsed as `wManifestJson`; the stand-in hash
is injective. -/
def wEnvGood : Env :=
  ⟨"/",
   fun p => if p = "/run/evidence/manifest.json" then .file (some 2) (some "MB")
     else .absent,
   fun s => "#" ++ s,
   fun s => if s = "MB" then some wManifestJson else none⟩

example : (validateRelativePath "a/../b").valid = true := by decide
example : (validateRelativePath "../x").valid = false := by decide
example : (validateRelativePath "/etc/passwd").valid = false := by decide
example : (validateRelativePath "a/b/../../../x").valid = false := by decide
example : safeJoin "/" "/run" "a/../b" = some "/run/b" := by decide
example : safeJoin "/" "/run" "../x" = none := by decide
example : safeJoin "/" "/run" "sub/f.txt" = some "/run/sub/f.txt" := by decide
example : safeJoin "/cwd" "run" "x" = some "/cwd/run/x" := by decide
example : safeJoin "/" "/run" "/etc" = none := by decide

/-! ### Path lemmas -/

theorem isPref_iff {a b : List Char} : isPref a b = true ↔ a <+: b := by
  induction a generalizing b with
  | nil => simp [isPref]
  | cons x s ih =>
    cases b with
    | nil => simp [isPref]
    | cons y t =>
      simp only [isPref, Bool.and_eq_true, decide_eq_true_eq, ih, List.cons_prefix_cons]

theorem splitSlash_no_slash {l : List Char} : ∀ s ∈ splitSlash l, '/' ∉ s := by
  induction l with
  | nil =>
    intro s hs
    rw [show splitSlash [] = [[]] from rfl] at hs
    simp only [List.mem_singleton] at hs
    subst hs; simp
  | cons c t ih =>
    intro s hs
    by_cases hc : c = '/'
    · subst hc
      have heq : splitSlash ('/' :: t) = [] :: splitSlash t := by simp [splitSlash]
      rw [heq] at hs
      rcases List.mem_cons.mp hs with h | h
      · subst h; simp
      · exact ih s h
    · simp only [splitSlash, if_neg hc] at hs
      rcases h0 : splitSlash t with _ | ⟨s0, rest⟩
      · rw [h0] at hs
        simp only [List.mem_singleton] at hs
        subst hs
        intro hmem
        rcases List.mem_cons.mp hmem with h | h
        · exact hc h.symm
        · simp at h
      · rw [h0] at hs
        simp only [List.mem_cons] at hs
        rcases hs with h | h
        · subst h
          intro hmem
          rcases List.mem_cons.mp hmem with h | h
          · exact hc h.symm
          · exact ih s0 (h0 ▸ List.mem_cons_self s0 rest) h
        · exact ih s (h0 ▸ List.mem_cons.mpr (Or.inr h))

theorem dotdot_wf : WfSeg dotdot := by constructor <;> simp [dotdot]

theorem popSeg_wf (allowUp : Bool) (acc : List Seg) (hacc : ∀ s ∈ acc, WfSeg s) :
    ∀ s ∈ popSeg allowUp acc, WfSeg s := by
  intro s hs
  cases acc with
  | nil =>
    simp only [popSeg] at hs
    cases allowUp with
    | true =>
      simp only [if_true] at hs
      simp only [List.mem_singleton] at hs
      subst hs; exact dotdot_wf
    | false => simp at hs
  | cons a acc' =>
    simp only [popSeg] at hs
    by_cases h3 : a = dotdot
    · rw [if_pos h3] at hs
      cases allowUp with
      | true =>
        rw [if_pos rfl] at hs
        rcases List.mem_cons.mp hs with h | h
        · subst h; exact dotdot_wf
        · exact hacc s h
      | false =>
        simp only [Bool.false_eq_true, if_false] at hs
        exact hacc s hs
    · rw [if_neg h3] at hs
      exact hacc s (List.mem_cons.mpr (Or.inr hs))

/-- `collapseRev` only ever pushes well-formed segments (given well-formed
input segments it produces well-formed output, in any accumulator state). -/
theorem collapseRev_wf (allowUp : Bool) (input : List Seg)
    (hin : ∀ s ∈ input, '/' ∉ s) :
    ∀ acc, (∀ s ∈ acc, WfSeg s) → ∀ s ∈ collapseRev allowUp acc input, WfSeg s := by
  induction input with
  | nil => intro acc hacc s hs; exact hacc s hs
  | cons seg rest ih =>
    intro acc hacc s hs
    have hrest : ∀ s ∈ rest, '/' ∉ s := fun s hs => hin s (List.mem_cons.mpr (Or.inr hs))
    have hseg : '/' ∉ seg := hin seg (List.mem_cons_self _ _)
    simp only [collapseRev] at hs
    by_cases h1 : seg = [] ∨ seg = ['.']
    · rw [if_pos h1] at hs; exact ih hrest acc hacc s hs
    · rw [if_neg h1] at hs
      by_cases h2 : seg = dotdot
      · rw [if_pos h2] at hs
        exact ih hrest _ (popSeg_wf allowUp acc hacc) s hs
      · rw [if_neg h2] at hs
        refine ih hrest _ ?_ s hs
        intro x hx
        rcases List.mem_cons.mp hx with h | h
        · subst h
          refine ⟨?_, hseg⟩
          intro hnil
          exact h1 (Or.inl hnil)
        · exact hacc x h

theorem normSegs_wf (allowUp : Bool) (l : List Char) :
    ∀ s ∈ normSegs allowUp l, WfSeg s := by
  intro s hs
  rw [normSegs, List.mem_reverse] at hs
  exact collapseRev_wf allowUp (splitSlash l) (fun s hs => splitSlash_no_slash s hs) [] (by simp) s hs

/-- Boundary matching: if two slash-free prefixes are each followed by a
slash, a prefix relation between the combined lists forces the heads equal. -/
theorem slash_boundary {b j0 : List Char} (hb : '/' ∉ b) (hj : '/' ∉ j0)
    {x w : List Char} (h : (b ++ '/' :: x) <+: (j0 ++ '/' :: w)) :
    b = j0 ∧ x <+: w := by
  induction b generalizing j0 with
  | nil =>
    cases j0 with
    | nil =>
      refine ⟨rfl, ?_⟩
      simp only [List.nil_append] at h
      exact (List.cons_prefix_cons.mp h).2
    | cons c j0' =>
      simp only [List.nil_append, List.cons_append] at h
      have := (List.cons_prefix_cons.mp h).1
      exact absurd (this ▸ List.mem_cons_self c j0') hj
  | cons a b' ih =>
    have ha : a ≠ '/' := fun h' => hb (h' ▸ List.mem_cons_self a b')
    cases j0 with
    | nil =>
      simp only [List.cons_append, List.nil_append] at h
      have := (List.cons_prefix_cons.mp h).1
      exact absurd this ha
    | cons c j0' =>
      simp only [List.cons_append] at h
      obtain ⟨hac, h'⟩ := List.cons_prefix_cons.mp h
      obtain ⟨heq, hxw⟩ := ih (fun hm => hb (List.mem_cons.mpr (Or.inr hm)))
        (fun hm => hj (List.mem_cons.mpr (Or.inr hm))) h'
      exact ⟨by rw [hac, heq], hxw⟩

/-- The central containment lemma: a string-level prefix relation between
rendered normalized paths (with a trailing separator on the left) implies a
segment-level prefix relation. -/
theorem interSlash_pref : ∀ (bs js : List Seg),
    (∀ s ∈ bs, WfSeg s) → (∀ s ∈ js, WfSeg s) →
    (interSlash bs ++ ['/']) <+: interSlash js → bs <+: js := by
  intro bs
  induction bs with
  | nil => intro js _ _ _; exact List.nil_prefix
  | cons b bs' ih =>
    intro js hwb hwj h
    obtain ⟨hbne, hbsl⟩ := hwb b (List.mem_cons_self _ _)
    cases js with
    | nil =>
      exfalso
      simp only [interSlash] at h
      rw [List.prefix_nil] at h
      simp at h
    | cons j0 js' =>
      obtain ⟨hjne, hjsl⟩ := hwj j0 (List.mem_cons_self _ _)
      cases bs' with
      | nil =>
        -- left side is `b ++ "/"`
        cases js' with
        | nil =>
          -- right side is just `j0`, which is slash-free: contradiction
          exfalso
          simp only [interSlash] at h
          exact hjsl (h.subset (by simp))
        | cons j1 js'' =>
          have hr : interSlash (j0 :: j1 :: js'') = j0 ++ '/' :: interSlash (j1 :: js'') := rfl
          have hl : interSlash [b] ++ ['/'] = b ++ '/' :: ([] : List Char) := rfl
          rw [hl, hr] at h
          obtain ⟨heq, _⟩ := slash_boundary hbsl hjsl h
          rw [heq]
          exact List.cons_prefix_cons.mpr ⟨rfl, List.nil_prefix⟩
      | cons b1 bs'' =>
        cases js' with
        | nil =>
          exfalso
          simp only [interSlash] at h
          exact hjsl (h.subset (by simp))
        | cons j1 js'' =>
          have hl : interSlash (b :: b1 :: bs'') ++ ['/']
              = b ++ '/' :: (interSlash (b1 :: bs'') ++ ['/']) := by
            simp [interSlash]
          have hr : interSlash (j0 :: j1 :: js'') = j0 ++ '/' :: interSlash (j1 :: js'') := rfl
          rw [hl, hr] at h
          obtain ⟨heq, h'⟩ := slash_boundary hbsl hjsl h
          have htail := ih (j1 :: js'')
            (fun s hs => hwb s (List.mem_cons.mpr (Or.inr hs)))
            (fun s hs => hwj s (List.mem_cons.mpr (Or.inr hs))) h'
          rw [heq]
          exact List.cons_prefix_cons.mpr ⟨rfl, htail⟩

theorem popSeg_dots {acc : List Seg} (h : DotsShape acc) :
    DotsShape (popSeg true acc) := by
  obtain ⟨xs, ds, hacc, hds, hxs⟩ := h
  cases acc with
  | nil =>
    refine ⟨[], [dotdot], rfl, ?_, by simp⟩
    intro d hd; simp at hd; exact hd
  | cons a acc' =>
    by_cases ha : a = dotdot
    · have hxsnil : xs = [] := by
        cases xs with
        | nil => rfl
        | cons x xs' =>
          exfalso
          have : x = a := by
            have := congrArg (fun l => l.head?) hacc
            simpa using this.symm
          exact hxs (by rw [this, ha]; exact List.mem_cons_self _ _)
      subst hxsnil
      simp only [List.nil_append] at hacc
      refine ⟨[], dotdot :: a :: acc', ?_, ?_, by simp⟩
      · simp [popSeg, ha]
      · intro d hd
        rcases List.mem_cons.mp hd with h | h
        · exact h
        · exact hds d (hacc ▸ h)
    · have hxscons : ∃ xs', xs = a :: xs' ∧ acc' = xs' ++ ds := by
        cases xs with
        | nil =>
          exfalso
          simp only [List.nil_append] at hacc
          exact ha (hds a (hacc ▸ List.mem_cons_self a acc'))
        | cons x xs' =>
          have hx : x = a := by
            have := congrArg (fun l => l.head?) hacc
            simpa using this.symm
          subst hx
          exact ⟨xs', rfl, by simpa using hacc⟩
      obtain ⟨xs', hxs', hacc'⟩ := hxscons
      refine ⟨xs', ds, ?_, hds, fun hm => hxs (hxs' ▸ List.mem_cons.mpr (Or.inr hm))⟩
      simp [popSeg, ha, hacc']

theorem collapseRev_dots (input : List Seg) :
    ∀ acc, DotsShape acc → DotsShape (collapseRev true acc input) := by
  induction input with
  | nil => intro acc h; exact h
  | cons seg rest ih =>
    intro acc h
    simp only [collapseRev]
    by_cases h1 : seg = [] ∨ seg = ['.']
    · rw [if_pos h1]; exact ih acc h
    · rw [if_neg h1]
      by_cases h2 : seg = dotdot
      · rw [if_pos h2]; exact ih _ (popSeg_dots h)
      · rw [if_neg h2]
        obtain ⟨xs, ds, hacc, hds, hxs⟩ := h
        refine ih _ ⟨seg :: xs, ds, by rw [hacc, List.cons_append], hds, ?_⟩
        intro hm
        rcases List.mem_cons.mp hm with h | h
        · exact h2 h.symm
        · exact hxs h

/-- If relative normalization leaves any `".."` segment, it is the first one. -/
theorem normSegs_true_dots (l : List Char) (h : dotdot ∈ normSegs true l) :
    ∃ rest, normSegs true l = dotdot :: rest := by
  obtain ⟨xs, ds, hacc, hds, hxs⟩ :=
    collapseRev_dots (splitSlash l) [] ⟨[], [], rfl, by simp, by simp⟩
  rw [normSegs, hacc, List.reverse_append] at h ⊢
  cases hrev : ds.reverse with
  | nil =>
    exfalso
    rw [hrev, List.nil_append] at h
    exact hxs (List.mem_reverse.mp h)
  | cons d0 ds' =>
    have hd0 : d0 = dotdot :=
      hds d0 (List.mem_reverse.mp (hrev ▸ List.mem_cons_self d0 ds'))
    refine ⟨ds' ++ xs.reverse, ?_⟩
    rw [hd0, List.cons_append]

theorem isPref_head_dotdot (rest : List Seg) (t : List Char) :
    isPref dotdot (interSlash (dotdot :: rest) ++ t) = true := by
  rw [isPref_iff]
  cases rest with
  | nil => exact List.prefix_append dotdot t
  | cons r rs =>
    show dotdot <+: (dotdot ++ '/' :: interSlash (r :: rs)) ++ t
    rw [List.append_assoc]
    exact List.prefix_append dotdot _

/-- C2, first part of the amended claim: a string that is absolute, or whose
normalized form still contains a `".."` segment, is rejected by
`validateRelativePath`. -/
theorem validateRelativePath_rejects (p : String)
    (h : isAbsoluteL p.data = true ∨ dotdot ∈ normSegs true p.data) :
    (validateRelativePath p).valid = false := by
  by_cases hemp : p.data = []
  · simp [validateRelativePath, hemp]
  · by_cases habs : isAbsoluteL p.data = true
    · simp [validateRelativePath, hemp, habs]
    · rcases h with h | h
      · exact absurd h habs
      · obtain ⟨rest, hr⟩ := normSegs_true_dots p.data h
        have hbody : interSlash (normSegs (!isAbsoluteL p.data) p.data)
            = interSlash (dotdot :: rest) := by
          rw [Bool.not_eq_true] at habs
          rw [habs]
          simp only [Bool.not_false]
          rw [hr]
        have hbodyne : interSlash (dotdot :: rest) ≠ [] := by
          cases rest with
          | nil => simp [interSlash, dotdot]
          | cons r rs => simp [interSlash, dotdot]
        have hnorm : ∃ t, normalizeL p.data = interSlash (dotdot :: rest) ++ t := by
          rw [normalizeL]
          simp only [hbody]
          rw [if_neg hbodyne]
          rw [Bool.not_eq_true] at habs
          rw [habs]
          simp only [Bool.false_eq_true, if_false, List.nil_append]
          exact ⟨_, rfl⟩
        obtain ⟨t, ht⟩ := hnorm
        have hpref : isPref dotdot (normalizeL p.data) = true := by
          rw [ht]; exact isPref_head_dotdot rest t
        rw [Bool.not_eq_true] at habs
        simp [validateRelativePath, hemp, habs, hpref]

/-- C2, second part of the amended claim: whenever `safeJoin` returns a path,
that path is the rendering of a normalized absolute segment list extending
the resolved base directory's segments — i.e. it is `base` itself or nested
strictly under it, never outside. -/
theorem safeJoin_contained (cwd baseDir p j : String)
    (h : safeJoin cwd baseDir p = some j) :
    ∃ segs, j = String.mk (renderAbs segs)
      ∧ resolveOne cwd.data baseDir.data <+: segs := by
  simp only [safeJoin] at h
  set bs := resolveOne cwd.data baseDir.data with hbs
  set js := if isAbsoluteL p.data then resolveAbsSegs p.data
    else resolveAbsSegs (renderAbs bs ++ '/' :: p.data) with hjs
  by_cases hc : !(isPref (renderAbs bs ++ ['/']) (renderAbs js)) && renderAbs js ≠ renderAbs bs
  · rw [if_pos hc] at h; exact absurd h (by simp)
  · rw [if_neg hc] at h
    have hj : j = String.mk (renderAbs js) := by
      injection h with h'; exact h'.symm
    have hwfb : ∀ s ∈ bs, WfSeg s := by
      rw [hbs, resolveOne]
      by_cases hab : isAbsoluteL baseDir.data
      · rw [if_pos hab]; exact normSegs_wf false _
      · rw [if_neg hab]; exact normSegs_wf false _
    have hwfj : ∀ s ∈ js, WfSeg s := by
      rw [hjs]
      by_cases hab : isAbsoluteL p.data
      · rw [if_pos hab]; exact normSegs_wf false _
      · rw [if_neg hab]; exact normSegs_wf false _
    cases hb : isPref (renderAbs bs ++ ['/']) (renderAbs js) with
    | true =>
      -- prefix check succeeded
      have hp := isPref_iff.mp hb
      have hps : (interSlash bs ++ ['/']) <+: interSlash js := by
        have h1 : renderAbs bs ++ ['/'] = '/' :: (interSlash bs ++ ['/']) := by
          rw [renderAbs]; rfl
        have h2 : renderAbs js = '/' :: interSlash js := rfl
        rw [h1, h2] at hp
        exact (List.cons_prefix_cons.mp hp).2
      exact ⟨js, hj, interSlash_pref bs js hwfb hwfj hps⟩
    | false =>
      -- the equality disjunct must have let the check pass
      rw [hb] at hc
      simp only [Bool.not_false, Bool.true_and] at hc
      have heq : renderAbs js = renderAbs bs := by
        by_contra hne
        exact hc (by simpa using hne)
      exact ⟨bs, by rw [hj, heq], List.prefix_refl bs⟩

/-! ## Claim theorems -/

/-- C2, counterexample: the string `"a/../b"` contains a `".."` segment, yet
`validateRelativePath` accepts it and `safeJoin` returns a non-null path
(the claim's disjunction "invalid or null" fails for it; the resolved path
stays inside the base, which is the amended guarantee). -/
theorem c2_counterexample :
    dotdot ∈ splitSlash "a/../b".data
    ∧ (validateRelativePath "a/../b").valid = true
    ∧ safeJoin "/" "/run" "a/../b" = some "/run/b" := by
  decide

/-- C2 (amended): for every string `p` that is absolute or whose normalized
form still contains a `".."` segment, `validateRelativePath p` reports
invalid; and `safeJoin` never returns a resolved path outside the base — any
returned path renders a normalized absolute segment list that extends the
resolved base directory's segments (equal to the base or strictly under
it). -/
theorem c2_amended_path_containment :
    (∀ p : String, isAbsoluteL p.data = true ∨ dotdot ∈ normSegs true p.data →
      (validateRelativePath p).valid = false)
    ∧ (∀ cwd baseDir p j : String, safeJoin cwd baseDir p = some j →
      ∃ segs, j = String.mk (renderAbs segs)
        ∧ resolveOne cwd.data baseDir.data <+: segs) :=
  ⟨validateRelativePath_rejects, safeJoin_contained⟩

/-- C2, witness: both parts of the amended claim applied at concrete inputs:
`"../escape"` is rejected, and the joined path `"/run/sub/f.txt"` is under
the base `"/run"`. -/
theorem c2_witness :
    (validateRelativePath "../escape").valid = false
    ∧ ∃ segs, ("/run/sub/f.txt" : String) = String.mk (renderAbs segs)
        ∧ resolveOne "/".data "/run".data <+: segs :=
  ⟨c2_amended_path_containment.1 "../escape" (Or.inr (by decide)),
   c2_amended_path_containment.2 "/" "/run" "sub/f.txt" "/run/sub/f.txt" (by decide)⟩

theorem strData_inj {s t : String} (h : s.data = t.data) : s = t := by
  cases s; cases t; congr

theorem cmpL_eq_iff : ∀ (x y : List Char), cmpL x y = .eq ↔ x = y := by
  intro x
  induction x with
  | nil => intro y; cases y <;> simp [cmpL]
  | cons a s ih =>
    intro y
    cases y with
    | nil => simp [cmpL]
    | cons b t =>
      by_cases hab : a = b
      · subst hab; simp [cmpL, ih]
      · by_cases hlt : a < b
        · simp [cmpL, hab, hlt]
        · simp [cmpL, hab, hlt]

theorem cmpL_swap : ∀ (x y : List Char), cmpL y x = (cmpL x y).swap := by
  intro x
  induction x with
  | nil => intro y; cases y <;> simp [cmpL, Ordering.swap]
  | cons a s ih =>
    intro y
    cases y with
    | nil => simp [cmpL, Ordering.swap]
    | cons b t =>
      rcases lt_trichotomy a b with h | h | h
      · have hab : a ≠ b := ne_of_lt h
        have hba : ¬b < a := not_lt_of_lt h
        simp [cmpL, hab, hab.symm, h, hba, Ordering.swap]
      · subst h; simp [cmpL, ih]
      · have hab : a ≠ b := (ne_of_lt h).symm
        have hba : ¬a < b := not_lt_of_lt h
        simp [cmpL, hab, hab.symm, h, hba, Ordering.swap]

theorem cmpL_lt_trans : ∀ (x y z : List Char),
    cmpL x y = .lt → cmpL y z = .lt → cmpL x z = .lt := by
  intro x
  induction x with
  | nil =>
    intro y z hxy hyz
    cases y with
    | nil => simp [cmpL] at hxy
    | cons b t =>
      cases z with
      | nil => simp [cmpL] at hyz
      | cons c u => simp [cmpL]
  | cons a s ih =>
    intro y z hxy hyz
    cases y with
    | nil => simp [cmpL] at hxy
    | cons b t =>
      cases z with
      | nil => simp [cmpL] at hyz
      | cons c u =>
        by_cases hab : a = b
        · subst hab
          simp only [cmpL, if_pos rfl] at hxy
          by_cases hac : a = c
          · subst hac
            simp only [cmpL, if_pos rfl] at hyz ⊢
            exact ih t u hxy hyz
          · simp only [cmpL, if_neg hac] at hyz ⊢
            exact hyz
        · simp only [cmpL, if_neg hab] at hxy
          by_cases halt : a < b
          · by_cases hbc : b = c
            · subst hbc
              simp only [cmpL, if_neg hab, if_pos halt]
            · simp only [cmpL, if_neg hbc] at hyz
              by_cases hblt : b < c
              · have hac : a < c := halt.trans hblt
                simp [cmpL, ne_of_lt hac, hac]
              · simp [if_neg hblt] at hyz
          · simp [if_neg halt] at hxy

theorem cmpL_le_trans : ∀ (x y z : List Char),
    cmpL x y ≠ .gt → cmpL y z ≠ .gt → cmpL x z ≠ .gt := by
  intro x y z hxy hyz
  cases h1 : cmpL x y with
  | gt => exact absurd h1 hxy
  | eq => rw [(cmpL_eq_iff x y).mp h1]; exact hyz
  | lt =>
    cases h2 : cmpL y z with
    | gt => exact absurd h2 hyz
    | eq => rw [← (cmpL_eq_iff y z).mp h2]; rw [h1]; simp
    | lt => rw [cmpL_lt_trans x y z h1 h2]; simp

theorem fLe_total : ∀ a b : VerificationFailure, fLe a b ∨ fLe b a := by
  intro a b
  cases hc : cmpL (codeStr a.code).data (codeStr b.code).data with
  | lt => exact Or.inl (Or.inl hc)
  | gt =>
    refine Or.inr (Or.inl ?_)
    rw [strLt, cmpL_swap, hc]; rfl
  | eq =>
    have he : codeStr a.code = codeStr b.code := strData_inj ((cmpL_eq_iff _ _).mp hc)
    cases hp : cmpL (a.path.getD "").data (b.path.getD "").data with
    | lt => exact Or.inl (Or.inr ⟨he, by rw [strLe, hp]; simp⟩)
    | eq => exact Or.inl (Or.inr ⟨he, by rw [strLe, hp]; simp⟩)
    | gt =>
      refine Or.inr (Or.inr ⟨he.symm, ?_⟩)
      rw [strLe, cmpL_swap, hp]; simp [Ordering.swap]

theorem fLe_trans : ∀ a b c : VerificationFailure, fLe a b → fLe b c → fLe a c := by
  intro a b c hab hbc
  rcases hab with h1 | ⟨e1, p1⟩
  · rcases hbc with h2 | ⟨e2, _⟩
    · exact Or.inl (cmpL_lt_trans _ _ _ h1 h2)
    · exact Or.inl (e2 ▸ h1)
  · rcases hbc with h2 | ⟨e2, p2⟩
    · exact Or.inl (by rw [strLt, e1]; exact h2)
    · exact Or.inr ⟨e1.trans e2, cmpL_le_trans _ _ _ p1 p2⟩

/-- C7: for every `VerificationResult` returned by `verifyEvidence`, the
`failures` list is non-decreasing (sorted) under the lexicographic ordering
of `(code, path ?? "")`, regardless of discovery order. -/
theorem c7_failures_sorted (env : Env) (receipt : NormalizedReceipt)
    (runDir : String) (options : Option VerifyOptions) :
    List.Sorted fLe (verifyEvidence env receipt runDir options).failures := by
  simp only [verifyEvidence, buildResult]
  exact @List.sorted_insertionSort _ fLe _ ⟨fLe_total⟩ ⟨fLe_trans⟩ _

/-- C8: for every `VerificationResult` returned by `verifyEvidence`, the `ok`
flag is true if and only if the `failures` list is empty. -/
theorem c8_ok_iff_failures_empty (env : Env) (receipt : NormalizedReceipt)
    (runDir : String) (options : Option VerifyOptions) :
    (verifyEvidence env receipt runDir options).ok = true
      ↔ (verifyEvidence env receipt runDir options).failures = [] := by
  simp only [verifyEvidence, buildResult, beq_iff_eq, List.length_eq_zero]

theorem mem_sortEvidence {x : EvidenceLink} {l : List EvidenceLink} :
    x ∈ sortEvidence l ↔ x ∈ l := by
  rw [sortEvidence, List.mem_dedup, List.mem_insertionSort]

/-- C10: every signal produced by `deriveBehaviorSignals` carries the
receipt's `receiptId` and `manifestSha256` evidence links, and its
`signalId` is one of the eleven ids the deriver can emit. -/
theorem c10_signal_links_and_ids (result : VerificationResult)
    (receipt : NormalizedReceipt) (observedAt : Nat) :
    ∀ s ∈ deriveBehaviorSignals result receipt observedAt,
      (⟨"receiptId", receipt.receiptId⟩ : EvidenceLink) ∈ s.evidence
      ∧ (⟨"manifestSha256", receipt.manifestSha256⟩ : EvidenceLink) ∈ s.evidence
      ∧ s.signalId ∈ ["BE_VERIFIED_OK", "BE_MANIFEST_NOT_FOUND",
          "BE_MANIFEST_HASH_MISMATCH", "BE_MANIFEST_PARSE_FAIL",
          "BE_MANIFEST_SCHEMA_INVALID", "BE_MANIFEST_TOO_LARGE",
          "BE_ARTIFACT_MISSING", "BE_ARTIFACT_HASH_MISMATCH",
          "BE_ARTIFACT_SIZE_MISMATCH", "BE_UNSAFE_PATH", "BE_DELIVERED_MISMATCH"] := by
  intro s hs
  simp only [deriveBehaviorSignals] at hs
  by_cases hok : result.ok = true
  · rw [if_pos hok] at hs
    simp only [List.mem_singleton] at hs
    subst hs
    refine ⟨?_, ?_, by simp⟩
    · exact mem_sortEvidence.mpr (List.mem_append.mpr (Or.inl (by simp)))
    · exact mem_sortEvidence.mpr (List.mem_append.mpr (Or.inl (by simp)))
  · rw [if_neg hok] at hs
    rw [List.mem_filterMap] at hs
    obtain ⟨d, hd, hfd⟩ := hs
    simp only [signalOfDef] at hfd
    by_cases hm :
        (d.codes.flatMap fun c => result.failures.filter fun f => f.code = c).isEmpty
    · rw [if_pos hm] at hfd; exact absurd hfd (by simp)
    · rw [if_neg hm] at hfd
      obtain rfl := Option.some.inj hfd
      refine ⟨mem_sortEvidence.mpr (List.mem_append.mpr (Or.inl (by simp))),
              mem_sortEvidence.mpr (List.mem_append.mpr (Or.inl (by simp))), ?_⟩
      have hid : d.signalId ∈ ["BE_MANIFEST_NOT_FOUND", "BE_MANIFEST_HASH_MISMATCH",
          "BE_MANIFEST_PARSE_FAIL", "BE_MANIFEST_SCHEMA_INVALID",
          "BE_MANIFEST_TOO_LARGE", "BE_ARTIFACT_MISSING", "BE_ARTIFACT_HASH_MISMATCH",
          "BE_ARTIFACT_SIZE_MISMATCH", "BE_UNSAFE_PATH", "BE_DELIVERED_MISMATCH"] := by
        simp only [SIGNAL_DEFS, List.mem_cons, List.not_mem_nil, or_false] at hd
        rcases hd with rfl | rfl | rfl | rfl | rfl | rfl | rfl | rfl | rfl | rfl <;> simp
      exact List.mem_cons_of_mem _ hid

/-- C10, witness: the invariants hold for the concrete `BE_VERIFIED_OK`
signal derived from `wOkResult` and `wReceipt`. -/
theorem c10_witness :
    (⟨"receiptId", wReceipt.receiptId⟩ : EvidenceLink) ∈ wOkSignal.evidence
    ∧ (⟨"manifestSha256", wReceipt.manifestSha256⟩ : EvidenceLink) ∈ wOkSignal.evidence
    ∧ wOkSignal.signalId ∈ ["BE_VERIFIED_OK", "BE_MANIFEST_NOT_FOUND",
        "BE_MANIFEST_HASH_MISMATCH", "BE_MANIFEST_PARSE_FAIL",
        "BE_MANIFEST_SCHEMA_INVALID", "BE_MANIFEST_TOO_LARGE",
        "BE_ARTIFACT_MISSING", "BE_ARTIFACT_HASH_MISMATCH",
        "BE_ARTIFACT_SIZE_MISMATCH", "BE_UNSAFE_PATH", "BE_DELIVERED_MISMATCH"] :=
  c10_signal_links_and_ids wOkResult wReceipt 5 wOkSignal (by decide)

/-- Counting signals with a given id across the signal definitions table:
each definition contributes one signal exactly when its id matches and some
failure matches one of its codes. -/
theorem countP_filterMap_signals (result : VerificationResult) (t : Nat)
    (base : List EvidenceLink) (tid : String) :
    ∀ l : List SignalDef,
      ((l.filterMap (signalOfDef result t base)).countP fun s => s.signalId == tid)
      = l.countP fun d => d.signalId == tid
          && !(d.codes.flatMap fun c => result.failures.filter fun f => f.code = c).isEmpty := by
  intro l
  induction l with
  | nil => rfl
  | cons d l ih =>
    cases hm : (d.codes.flatMap fun c => result.failures.filter fun f => f.code = c).isEmpty with
    | true =>
      rw [List.filterMap_cons_none (by simp [signalOfDef, hm]), ih, List.countP_cons]
      simp [hm]
    | false =>
      have hsome : signalOfDef result t base d
          = some ⟨d.signalId, d.severity, d.weight, t,
            sortEvidence (base
              ++ ((d.codes.flatMap fun c => result.failures.filter fun f => f.code = c).filterMap
                fun f => f.path.map fun p => ⟨"failurePath", p⟩))⟩ := by
        simp [signalOfDef, hm]
      rw [List.filterMap_cons_some hsome, List.countP_cons, List.countP_cons, ih]
      simp [hm]

/-- C4, counterexample to the claim as stated: a result with N = 2
`ARTIFACT_HASH_MISMATCH` failures on the *same* path yields exactly one
`BE_ARTIFACT_HASH_MISMATCH` signal whose evidence carries only 1
`failurePath` entry (evidence is deduplicated), not one entry per matching
failure. -/
theorem c4_counterexample :
    ((wDupResult.failures.filter fun f =>
        f.code = FailureCode.ARTIFACT_HASH_MISMATCH).length = 2)
    ∧ (((deriveBehaviorSignals wDupResult wReceipt 5).countP
        fun s => s.signalId == "BE_ARTIFACT_HASH_MISMATCH") = 1)
    ∧ ∀ s ∈ deriveBehaviorSignals wDupResult wReceipt 5,
        s.signalId = "BE_ARTIFACT_HASH_MISMATCH" →
        (s.evidence.countP fun e => e.type == "failurePath") = 1 := by
  decide

/-- C4 (amended): for every `VerificationResult` with `ok = false` in which
N ≥ 2 failures carry `ARTIFACT_HASH_MISMATCH`, `deriveBehaviorSignals` emits
exactly one `BE_ARTIFACT_HASH_MISMATCH` signal, and that signal's evidence
contains one `failurePath` entry per *distinct* path among the matching
failures (evidence links are deduplicated, so N entries when the N failures
carry N distinct paths). -/
theorem c4_amended_collapse (result : VerificationResult)
    (receipt : NormalizedReceipt) (t : Nat) (hok : result.ok = false)
    (hN : 2 ≤ (result.failures.filter fun f =>
      f.code = FailureCode.ARTIFACT_HASH_MISMATCH).length) :
    (((deriveBehaviorSignals result receipt t).countP
        fun s => s.signalId == "BE_ARTIFACT_HASH_MISMATCH") = 1)
    ∧ ∀ s ∈ deriveBehaviorSignals result receipt t,
        s.signalId = "BE_ARTIFACT_HASH_MISMATCH" →
        ∀ p : String, (⟨"failurePath", p⟩ : EvidenceLink) ∈ s.evidence
          ↔ ∃ f ∈ result.failures,
              f.code = FailureCode.ARTIFACT_HASH_MISMATCH ∧ f.path = some p := by
  have hne : (result.failures.filter fun f =>
      f.code = FailureCode.ARTIFACT_HASH_MISMATCH).isEmpty = false := by
    cases hfe : result.failures.filter fun f =>
        f.code = FailureCode.ARTIFACT_HASH_MISMATCH with
    | nil => rw [hfe] at hN; simp at hN
    | cons a l => simp
  have hnok : ¬(result.ok = true) := by rw [hok]; simp
  constructor
  · simp only [deriveBehaviorSignals, if_neg hnok]
    rw [countP_filterMap_signals]
    simp [SIGNAL_DEFS, List.countP_cons, hne]
  · intro s hs hid p
    simp only [deriveBehaviorSignals, if_neg hnok] at hs
    rw [List.mem_filterMap] at hs
    obtain ⟨d, hd, hfd⟩ := hs
    simp only [signalOfDef] at hfd
    by_cases hm :
        (d.codes.flatMap fun c => result.failures.filter fun f => f.code = c).isEmpty
    · rw [if_pos hm] at hfd; exact absurd hfd (by simp)
    · rw [if_neg hm] at hfd
      obtain rfl := Option.some.inj hfd
      simp only at hid
      simp only [SIGNAL_DEFS, List.mem_cons, List.not_mem_nil, or_false] at hd
      rcases hd with rfl | rfl | rfl | rfl | rfl | rfl | rfl | rfl | rfl | rfl <;>
        simp only at hid <;> try exact absurd hid (by decide)
      -- the `BE_ARTIFACT_HASH_MISMATCH` definition, codes = [ARTIFACT_HASH_MISMATCH]
      rw [mem_sortEvidence, List.mem_append]
      constructor
      · rintro (hbase | hfe)
        · exfalso; simp at hbase
        · rw [List.mem_filterMap] at hfe
          obtain ⟨f, hfmem, hfeq⟩ := hfe
          rw [List.flatMap_cons, List.flatMap_nil, List.append_nil] at hfmem
          rw [List.mem_filter] at hfmem
          obtain ⟨hfl, hfc⟩ := hfmem
          cases hp : f.path with
          | none => rw [hp] at hfeq; exact absurd hfeq (by simp)
          | some q =>
            rw [hp] at hfeq
            simp only [Option.map_some', Option.some.injEq, EvidenceLink.mk.injEq,
              true_and] at hfeq
            exact ⟨f, hfl, by simpa using hfc, by rw [hp, hfeq]⟩
      · rintro ⟨f, hf, hcode, hpath⟩
        right
        rw [List.mem_filterMap]
        refine ⟨f, ?_, by rw [hpath]; rfl⟩
        rw [List.flatMap_cons, List.flatMap_nil, List.append_nil, List.mem_filter]
        exact ⟨hf, by simp [hcode]⟩

/-- C4, witness: the amended collapse law at a concrete result with two
hash-mismatch failures on two distinct paths. -/
theorem c4_witness :
    (((deriveBehaviorSignals wDistinctResult wReceipt 5).countP
        fun s => s.signalId == "BE_ARTIFACT_HASH_MISMATCH") = 1)
    ∧ ∀ s ∈ deriveBehaviorSignals wDistinctResult wReceipt 5,
        s.signalId = "BE_ARTIFACT_HASH_MISMATCH" →
        ∀ p : String, (⟨"failurePath", p⟩ : EvidenceLink) ∈ s.evidence
          ↔ ∃ f ∈ wDistinctResult.failures,
              f.code = FailureCode.ARTIFACT_HASH_MISMATCH ∧ f.path = some p :=
  c4_amended_collapse wDistinctResult wReceipt 5 (by decide) (by decide)

theorem vseq_ok {α β : Type} {x : V (α → β)} {y : V α} {b : β}
    (h : vseq x y = .ok b) : ∃ f a, x = .ok f ∧ y = .ok a ∧ b = f a := by
  cases x with
  | error e =>
    cases y with
    | error e2 => simp [vseq] at h
    | ok a => simp [vseq] at h
  | ok f =>
    cases y with
    | error e => simp [vseq] at h
    | ok a =>
      refine ⟨f, a, rfl, rfl, ?_⟩
      simpa [vseq] using h.symm

theorem vfield_ok {α : Type} {kvs : List (String × Json)} {name : String}
    {f : Json → V α} {a : α} (h : vfield kvs name f = .ok a) :
    ∃ v, jlookup name kvs = some v ∧ f v = .ok a := by
  cases hl : jlookup name kvs with
  | none => simp [vfield, hl] at h
  | some v =>
    cases hf : f v with
    | ok a2 =>
      simp only [vfield, hl, hf, Except.ok.injEq] at h
      exact ⟨v, rfl, by rw [hf, h]⟩
    | error es => simp [vfield, hl, hf] at h

theorem vLit_ok {lit : String} {j : Json} {s : String} (h : vLit lit j = .ok s) :
    j = .str lit ∧ s = lit := by
  cases j with
  | str s2 =>
    by_cases he : s2 = lit
    · subst he
      have hv : vLit s2 (Json.str s2) = Except.ok s2 := by simp [vLit]
      rw [hv] at h
      injection h with h2
      exact ⟨rfl, h2.symm⟩
    · simp [vLit, he] at h
  | null => simp [vLit] at h
  | bool b => simp [vLit] at h
  | num q => simp [vLit] at h
  | arr xs => simp [vLit] at h
  | obj kvs => simp [vLit] at h

theorem vSha_ok {j : Json} {s : String} (h : vSha j = .ok s) :
    isSha256Hex s = true := by
  cases j with
  | str s2 =>
    cases hx : isSha256Hex s2 with
    | true =>
      have hv : vSha (Json.str s2) = Except.ok s2 := by simp [vSha, hx]
      rw [hv] at h
      injection h with h2
      rw [← h2]; exact hx
    | false => simp [vSha, hx] at h
  | null => simp [vSha] at h
  | bool b => simp [vSha] at h
  | num q => simp [vSha] at h
  | arr xs => simp [vSha] at h
  | obj kvs => simp [vSha] at h

theorem vDatetime_ok {j : Json} {s : String} (h : vDatetime j = .ok s) :
    isIsoDatetime s = true := by
  cases j with
  | str s2 =>
    cases hx : isIsoDatetime s2 with
    | true =>
      have hv : vDatetime (Json.str s2) = Except.ok s2 := by simp [vDatetime, hx]
      rw [hv] at h
      injection h with h2
      rw [← h2]; exact hx
    | false => simp [vDatetime, hx] at h
  | null => simp [vDatetime] at h
  | bool b => simp [vDatetime] at h
  | num q => simp [vDatetime] at h
  | arr xs => simp [vDatetime] at h
  | obj kvs => simp [vDatetime] at h

theorem vNonnegInt_ok {j : Json} {n : Int} (h : vNonnegInt j = .ok n) :
    0 ≤ n := by
  cases j with
  | num q =>
    by_cases hd : q.den = 1
    · by_cases hn : 0 ≤ q.num
      · have hv : vNonnegInt (Json.num q) = Except.ok q.num := by
          simp [vNonnegInt, asInt, hd, hn]
        rw [hv] at h
        injection h with h2
        rw [← h2]; exact hn
      · have hv : vNonnegInt (Json.num q) = Except.error ["expected nonnegative"] := by
          simp [vNonnegInt, asInt, hd, hn]
        rw [hv] at h
        exact absurd h (by simp)
    · have hv : vNonnegInt (Json.num q) = Except.error ["expected integer"] := by
        simp [vNonnegInt, asInt, hd]
      rw [hv] at h
      exact absurd h (by simp)
  | null => simp [vNonnegInt, asInt] at h
  | bool b => simp [vNonnegInt, asInt] at h
  | str s => simp [vNonnegInt, asInt] at h
  | arr xs => simp [vNonnegInt, asInt] at h
  | obj kvs => simp [vNonnegInt, asInt] at h

theorem vList_ok_mem {α : Type} {f : Json → V α} :
    ∀ {xs : List Json} {as : List α}, vList f xs = .ok as →
      ∀ a ∈ as, ∃ x ∈ xs, f x = .ok a := by
  intro xs
  induction xs with
  | nil =>
    intro as h a ha
    simp only [vList, Except.ok.injEq] at h
    subst h
    simp at ha
  | cons x t ih =>
    intro as h a ha
    simp only [vList] at h
    obtain ⟨g, as', hg, hlist, rfl⟩ := vseq_ok h
    obtain ⟨g2, a0, hg2, hfx, rfl⟩ := vseq_ok hg
    simp only [Except.ok.injEq] at hg2
    subst hg2
    rcases List.mem_cons.mp ha with rfl | hmem
    · exact ⟨x, List.mem_cons_self _ _, hfx⟩
    · obtain ⟨x2, hx2, hfx2⟩ := ih hlist a hmem
      exact ⟨x2, List.mem_cons.mpr (Or.inr hx2), hfx2⟩

theorem vArray_ok_mem {α : Type} {f : Json → V α} {j : Json} {as : List α}
    (h : vArray f j = .ok as) : ∀ a ∈ as, ∃ x, f x = .ok a := by
  cases j with
  | arr xs =>
    intro a ha
    obtain ⟨x, _, hfx⟩ := vList_ok_mem (by simpa [vArray] using h) a ha
    exact ⟨x, hfx⟩
  | null => simp [vArray] at h
  | bool b => simp [vArray] at h
  | num q => simp [vArray] at h
  | str s => simp [vArray] at h
  | obj kvs => simp [vArray] at h

theorem vArtifact_ok {j : Json} {a : ArtifactEntry} (h : vArtifact j = .ok a) :
    isSha256Hex a.sha256 = true ∧ 0 ≤ a.bytes := by
  cases j with
  | obj kvs =>
    simp only [vArtifact] at h
    obtain ⟨g1, vct, h1, hct, rfl⟩ := vseq_ok h
    obtain ⟨g2, vby, h2, hby, rfl⟩ := vseq_ok h1
    obtain ⟨g3, vsh, h3, hsh, rfl⟩ := vseq_ok h2
    obtain ⟨g4, vpa, h4, hpa, rfl⟩ := vseq_ok h3
    simp only [Except.ok.injEq] at h4
    subst h4
    obtain ⟨v1, _, hsha⟩ := vfield_ok hsh
    obtain ⟨v2, _, hbytes⟩ := vfield_ok hby
    exact ⟨vSha_ok hsha, vNonnegInt_ok hbytes⟩
  | null => simp [vArtifact] at h
  | bool b => simp [vArtifact] at h
  | num q => simp [vArtifact] at h
  | str s => simp [vArtifact] at h
  | arr xs => simp [vArtifact] at h

theorem vSolver_ok {j : Json} {sm : SolverMetadata} (h : vSolver j = .ok sm) :
    sm.service = "irsb-solver" := by
  cases j with
  | obj kvs =>
    simp only [vSolver] at h
    obtain ⟨g1, vgc, h1, hgc, rfl⟩ := vseq_ok h
    obtain ⟨g2, vsv, h2, hsv, rfl⟩ := vseq_ok h1
    obtain ⟨g3, vse, h3, hse, rfl⟩ := vseq_ok h2
    simp only [Except.ok.injEq] at h3
    subst h3
    obtain ⟨v, _, hlit⟩ := vfield_ok hse
    exact (vLit_ok hlit).2
  | null => simp [vSolver] at h
  | bool b => simp [vSolver] at h
  | num q => simp [vSolver] at h
  | str s => simp [vSolver] at h
  | arr xs => simp [vSolver] at h

/-- C3: manifest schema validation is total and all-or-nothing — every
document either validates to a fully conforming manifest or is rejected
with the list of issues; an accepted document has the exact
`manifestVersion` literal, all artifact `sha256` values matching the 64-hex
pattern, non-negative integer `bytes`, a status among the three literals and
the fixed solver service — no partially accepted object exists. -/
theorem c3_schema_total_all_or_nothing :
    (∀ j : Json, (∃ m, validateManifest j = Except.ok m)
      ∨ (∃ issues, validateManifest j = Except.error issues))
    ∧ (∀ (j : Json) (m : SolverReceiptV0),
        validateManifest j = Except.ok m → ManifestOkSpec j m) := by
  constructor
  · intro j
    cases h : validateManifest j with
    | ok m => exact Or.inl ⟨m, rfl⟩
    | error es => exact Or.inr ⟨es, rfl⟩
  · intro j m h
    cases j with
    | obj kvs =>
      simp only [validateManifest] at h
      obtain ⟨g1, vso, h1, hso, rfl⟩ := vseq_ok h
      obtain ⟨g2, vex, h2, hex, rfl⟩ := vseq_ok h1
      obtain ⟨g3, vpo, h3, hpo, rfl⟩ := vseq_ok h2
      obtain ⟨g4, var, h4, har, rfl⟩ := vseq_ok h3
      obtain ⟨g5, vca, h5, hca, rfl⟩ := vseq_ok h4
      obtain ⟨g6, vjt, h6, hjt, rfl⟩ := vseq_ok h5
      obtain ⟨g7, vri, h7, hri, rfl⟩ := vseq_ok h6
      obtain ⟨g8, vii, h8, hii, rfl⟩ := vseq_ok h7
      obtain ⟨g9, vmv, h9, hmv, rfl⟩ := vseq_ok h8
      simp only [Except.ok.injEq] at h9
      subst h9
      obtain ⟨vm, hlook, hlit⟩ := vfield_ok hmv
      obtain ⟨hvm, hveq⟩ := vLit_ok hlit
      refine ⟨⟨kvs, rfl, by rw [hlook, hvm], har, hex, hso⟩, hveq, ?_, ?_, ?_, ?_⟩
      · intro a ha
        obtain ⟨v, _, hart⟩ := vfield_ok har
        obtain ⟨x, hfx⟩ := vArray_ok_mem hart a ha
        exact vArtifact_ok hfx
      · obtain ⟨v, _, hdt⟩ := vfield_ok hca
        exact vDatetime_ok hdt
      · show vex.status = ExecStatus.SUCCESS ∨ vex.status = ExecStatus.FAILED
            ∨ vex.status = ExecStatus.REFUSED
        cases vex.status
        · exact Or.inl rfl
        · exact Or.inr (Or.inl rfl)
        · exact Or.inr (Or.inr rfl)
      · obtain ⟨v, _, hsol⟩ := vfield_ok hso
        exact vSolver_ok hsol
    | null => simp [validateManifest] at h
    | bool b => simp [validateManifest] at h
    | num q => simp [validateManifest] at h
    | str s => simp [validateManifest] at h
    | arr xs => simp [validateManifest] at h

/-- C3, witness: the concrete manifest document `wManifestJson` validates to
`wManifest` and the accepted-document guarantees hold for it. -/
theorem c3_witness : ManifestOkSpec wManifestJson wManifest :=
  c3_schema_total_all_or_nothing.2 wManifestJson wManifest (by rfl)

/-- When every manifest-stage check passes, `verifyEvidence` reaches steps
7-8: the delivered-list comparison plus the per-artifact loop over all of
`receipt.delivered`. -/
theorem verifyEvidence_manifest_ok (env : Env) (receipt : NormalizedReceipt)
    (runDir : String) (options : Option VerifyOptions) (mabs : String)
    (msize : Nat) (mbytes : String) (mj : Json) (manifest : SolverReceiptV0)
    (hpc : (validateRelativePath receipt.manifestPath).valid = true)
    (hjoin : safeJoin env.cwd runDir receipt.manifestPath = some mabs)
    (hfs : env.fs mabs = .file (some msize) (some mbytes))
    (hsize : ¬ msize
      > (options.bind fun o => o.maxManifestBytes).getD DEFAULT_MAX_MANIFEST_BYTES)
    (hhash : env.sha256Hex mbytes = receipt.manifestSha256)
    (hparse : env.parseJson mbytes = some mj)
    (hvalid : validateManifest mj = .ok manifest) :
    verifyEvidence env receipt runDir options
      = buildResult
          ((if manifestPathsJoined manifest ≠ deliveredPathsJoined receipt
            then [⟨.DELIVERED_MISMATCH,
              "Receipt delivered[] does not match manifest artifacts", none⟩]
            else [])
            ++ ((receipt.delivered.map (checkArtifact env runDir
              ((options.bind fun o => o.maxArtifactBytes).getD
                DEFAULT_MAX_ARTIFACT_BYTES))).map Prod.fst).flatten)
          ([⟨"receiptId", receipt.receiptId⟩,
            ⟨"manifestSha256", receipt.manifestSha256⟩]
            ++ ((receipt.delivered.map (checkArtifact env runDir
              ((options.bind fun o => o.maxArtifactBytes).getD
                DEFAULT_MAX_ARTIFACT_BYTES))).map Prod.snd).flatten) := by
  simp only [verifyEvidence, verifyCollect, hpc, Bool.not_true, Bool.false_eq_true,
    if_false, hjoin, hfs, if_neg hsize, hhash, ne_eq, not_true_eq_false, hparse, hvalid]

theorem mem_buildResult_of_mem {f : VerificationFailure}
    {fs : List VerificationFailure} {ev : List EvidenceLink}
    (h : f ∈ fs) : f ∈ (buildResult fs ev).failures := by
  simp only [buildResult]
  rw [List.mem_insertionSort]
  exact h

/-- C5: a `DELIVERED_MISMATCH` does not short-circuit — when the manifest
itself is sound but its sorted artifact-path list differs from the
receipt's sorted `delivered` path list, the `DELIVERED_MISMATCH` failure is
recorded *and* every failure produced by the per-artifact checks for every
entry of `receipt.delivered` still appears in the result. -/
theorem c5_delivered_mismatch_no_short_circuit (env : Env)
    (receipt : NormalizedReceipt) (runDir : String)
    (options : Option VerifyOptions) (mabs : String) (msize : Nat)
    (mbytes : String) (mj : Json) (manifest : SolverReceiptV0)
    (hpc : (validateRelativePath receipt.manifestPath).valid = true)
    (hjoin : safeJoin env.cwd runDir receipt.manifestPath = some mabs)
    (hfs : env.fs mabs = .file (some msize) (some mbytes))
    (hsize : ¬ msize
      > (options.bind fun o => o.maxManifestBytes).getD DEFAULT_MAX_MANIFEST_BYTES)
    (hhash : env.sha256Hex mbytes = receipt.manifestSha256)
    (hparse : env.parseJson mbytes = some mj)
    (hvalid : validateManifest mj = .ok manifest)
    (hdm : manifestPathsJoined manifest ≠ deliveredPathsJoined receipt) :
    ((⟨.DELIVERED_MISMATCH, "Receipt delivered[] does not match manifest artifacts",
        none⟩ : VerificationFailure)
      ∈ (verifyEvidence env receipt runDir options).failures)
    ∧ ∀ a ∈ receipt.delivered,
        ∀ f ∈ (checkArtifact env runDir
          ((options.bind fun o => o.maxArtifactBytes).getD
            DEFAULT_MAX_ARTIFACT_BYTES) a).1,
        f ∈ (verifyEvidence env receipt runDir options).failures := by
  rw [verifyEvidence_manifest_ok env receipt runDir options mabs msize mbytes mj
    manifest hpc hjoin hfs hsize hhash hparse hvalid]
  rw [if_pos hdm]
  constructor
  · exact mem_buildResult_of_mem
      (List.mem_append.mpr (Or.inl (List.mem_singleton.mpr rfl)))
  · intro a ha f hf
    refine mem_buildResult_of_mem (List.mem_append.mpr (Or.inr ?_))
    rw [List.mem_flatten]
    refine ⟨(checkArtifact env runDir
      ((options.bind fun o => o.maxArtifactBytes).getD DEFAULT_MAX_ARTIFACT_BYTES) a).1,
      ?_, hf⟩
    exact List.mem_map.mpr ⟨checkArtifact env runDir _ a,
      List.mem_map.mpr ⟨a, ha, rfl⟩, rfl⟩

/-- When an existing, readable artifact is within the size limit but has
both the wrong size and the wrong hash, the per-artifact check records both
failures (the size mismatch does not skip the hash check). -/
theorem checkArtifact_size_and_hash (env : Env) (runDir : String)
    (maxArtifactBytes : Nat) (a : DeliveredArtifact) (aabs : String)
    (asize : Nat) (abytes : String)
    (hpc : (validateRelativePath a.path).valid = true)
    (hjoin : safeJoin env.cwd runDir a.path = some aabs)
    (hfs : env.fs aabs = .file (some asize) (some abytes))
    (hbig : ¬ asize > maxArtifactBytes)
    (hsz : (asize : Int) ≠ a.bytes)
    (hh : env.sha256Hex abytes ≠ a.sha256) :
    (checkArtifact env runDir maxArtifactBytes a).1
      = [⟨.ARTIFACT_SIZE_MISMATCH,
          "Artifact size mismatch for " ++ a.path ++ ": expected "
            ++ toString a.bytes ++ ", got " ++ toString asize, some a.path⟩,
         ⟨.ARTIFACT_HASH_MISMATCH,
          "Artifact hash mismatch for " ++ a.path ++ ": expected "
            ++ a.sha256 ++ ", got " ++ env.sha256Hex abytes, some a.path⟩] := by
  simp only [checkArtifact, hpc, Bool.not_true, Bool.false_eq_true, if_false,
    hjoin, hfs, if_neg hbig, ne_eq, hsz, not_false_eq_true, if_true, hh]
  rfl

/-- C9: an `ARTIFACT_SIZE_MISMATCH` does not skip the hash check — for an
artifact of `receipt.delivered` that exists, is within the size limit and is
readable, but whose on-disk size differs from its declared `bytes` and whose
content hash differs from its declared `sha256`, both the size-mismatch and
the hash-mismatch failures appear in the `verifyEvidence` result for that
path. -/
theorem c9_size_mismatch_does_not_skip_hash (env : Env)
    (receipt : NormalizedReceipt) (runDir : String)
    (options : Option VerifyOptions) (mabs : String) (msize : Nat)
    (mbytes : String) (mj : Json) (manifest : SolverReceiptV0)
    (a : DeliveredArtifact) (aabs : String) (asize : Nat) (abytes : String)
    (hpc : (validateRelativePath receipt.manifestPath).valid = true)
    (hjoin : safeJoin env.cwd runDir receipt.manifestPath = some mabs)
    (hfs : env.fs mabs = .file (some msize) (some mbytes))
    (hsize : ¬ msize
      > (options.bind fun o => o.maxManifestBytes).getD DEFAULT_MAX_MANIFEST_BYTES)
    (hhash : env.sha256Hex mbytes = receipt.manifestSha256)
    (hparse : env.parseJson mbytes = some mj)
    (hvalid : validateManifest mj = .ok manifest)
    (ha : a ∈ receipt.delivered)
    (hapc : (validateRelativePath a.path).valid = true)
    (hajoin : safeJoin env.cwd runDir a.path = some aabs)
    (hafs : env.fs aabs = .file (some asize) (some abytes))
    (habig : ¬ asize > (options.bind fun o => o.maxArtifactBytes).getD
      DEFAULT_MAX_ARTIFACT_BYTES)
    (hasz : (asize : Int) ≠ a.bytes)
    (hah : env.sha256Hex abytes ≠ a.sha256) :
    ((⟨.ARTIFACT_SIZE_MISMATCH,
        "Artifact size mismatch for " ++ a.path ++ ": expected "
          ++ toString a.bytes ++ ", got " ++ toString asize, some a.path⟩
        : VerificationFailure)
      ∈ (verifyEvidence env receipt runDir options).failures)
    ∧ ((⟨.ARTIFACT_HASH_MISMATCH,
        "Artifact hash mismatch for " ++ a.path ++ ": expected "
          ++ a.sha256 ++ ", got " ++ env.sha256Hex abytes, some a.path⟩
        : VerificationFailure)
      ∈ (verifyEvidence env receipt runDir options).failures) := by
  rw [verifyEvidence_manifest_ok env receipt runDir options mabs msize mbytes mj
    manifest hpc hjoin hfs hsize hhash hparse hvalid]
  have hck := checkArtifact_size_and_hash env runDir
    ((options.bind fun o => o.maxArtifactBytes).getD DEFAULT_MAX_ARTIFACT_BYTES)
    a aabs asize abytes hapc hajoin hafs habig hasz hah
  constructor
  · refine mem_buildResult_of_mem (List.mem_append.mpr (Or.inr ?_))
    rw [List.mem_flatten]
    refine ⟨(checkArtifact env runDir
      ((options.bind fun o => o.maxArtifactBytes).getD DEFAULT_MAX_ARTIFACT_BYTES) a).1,
      List.mem_map.mpr ⟨checkArtifact env runDir _ a,
        List.mem_map.mpr ⟨a, ha, rfl⟩, rfl⟩, ?_⟩
    rw [hck]
    exact List.mem_cons_self _ _
  · refine mem_buildResult_of_mem (List.mem_append.mpr (Or.inr ?_))
    rw [List.mem_flatten]
    refine ⟨(checkArtifact env runDir
      ((options.bind fun o => o.maxArtifactBytes).getD DEFAULT_MAX_ARTIFACT_BYTES) a).1,
      List.mem_map.mpr ⟨checkArtifact env runDir _ a,
        List.mem_map.mpr ⟨a, ha, rfl⟩, rfl⟩, ?_⟩
    rw [hck]
    exact List.mem_cons.mpr (Or.inr (List.mem_singleton.mpr rfl))

/-- C5, witness: the mismatch scenario at a concrete environment — the
manifest declares no artifacts while the receipt claims `art.txt`. -/
theorem c5_witness :
    ((⟨.DELIVERED_MISMATCH, "Receipt delivered[] does not match manifest artifacts",
        none⟩ : VerificationFailure)
      ∈ (verifyEvidence wEnvArtifact wReceiptMismatch "/run" none).failures)
    ∧ ∀ a ∈ wReceiptMismatch.delivered,
        ∀ f ∈ (checkArtifact wEnvArtifact "/run"
          ((none.bind fun o : VerifyOptions => o.maxArtifactBytes).getD
            DEFAULT_MAX_ARTIFACT_BYTES) a).1,
        f ∈ (verifyEvidence wEnvArtifact wReceiptMismatch "/run" none).failures :=
  c5_delivered_mismatch_no_short_circuit wEnvArtifact wReceiptMismatch "/run" none
    "/run/evidence/manifest.json" 2 "MB" wManifestJson wManifest
    (by decide) (by decide) (by rfl) (by decide) (by rfl) (by rfl) (by rfl)
    (by decide)

/-- C9, witness: both failures fire for the concrete artifact `art.txt`
whose on-disk size is 7 (declared 3) and whose hash differs. -/
theorem c9_witness :
    ((⟨.ARTIFACT_SIZE_MISMATCH,
        "Artifact size mismatch for " ++ wArt.path ++ ": expected "
          ++ toString wArt.bytes ++ ", got " ++ toString (7 : Nat), some wArt.path⟩
        : VerificationFailure)
      ∈ (verifyEvidence wEnvArtifact wReceiptMismatch "/run" none).failures)
    ∧ ((⟨.ARTIFACT_HASH_MISMATCH,
        "Artifact hash mismatch for " ++ wArt.path ++ ": expected "
          ++ wArt.sha256 ++ ", got " ++ wEnvArtifact.sha256Hex "DATA", some wArt.path⟩
        : VerificationFailure)
      ∈ (verifyEvidence wEnvArtifact wReceiptMismatch "/run" none).failures) :=
  c9_size_mismatch_does_not_skip_hash wEnvArtifact wReceiptMismatch "/run" none
    "/run/evidence/manifest.json" 2 "MB" wManifestJson wManifest
    wArt "/run/art.txt" 7 "DATA"
    (by decide) (by decide) (by rfl) (by decide) (by rfl) (by rfl) (by rfl)
    (by decide) (by decide) (by decide) (by rfl) (by decide) (by decide) (by decide)

theorem jlookup_pairs {kvs mid : List (String × Json)}
    (h : JEquivPairs kvs mid) (k : String) :
    Option.Rel JEquiv (jlookup k kvs) (jlookup k mid) := by
  induction kvs generalizing mid with
  | nil => cases h; exact Option.Rel.none
  | cons p t1 iht =>
    cases h with
    | @cons k0 v1 v2 _ t2 hv ht =>
      have ih := iht ht
      simp only [jlookup]
      rcases h1 : jlookup k t1 with _ | w1 <;>
        rcases h2 : jlookup k t2 with _ | w2 <;> rw [h1, h2] at ih
      · by_cases hbk : k0 = k
        · rw [if_pos hbk, if_pos hbk]
          exact Option.Rel.some hv
        · rw [if_neg hbk, if_neg hbk]
          exact Option.Rel.none
      · cases ih
      · cases ih
      · cases ih with
        | some hr => exact Option.Rel.some hr

theorem jlookup_perm {l1 l2 : List (String × Json)} (p : l1.Perm l2)
    (nd : (l1.map Prod.fst).Nodup) (k : String) :
    jlookup k l1 = jlookup k l2 := by
  induction p with
  | nil => rfl
  | cons x p ih =>
    have ndt := nd
    simp only [List.map_cons, List.nodup_cons] at ndt
    simp only [jlookup, ih ndt.2]
  | swap x y l =>
    simp only [jlookup]
    rcases h0 : jlookup k l with _ | w
    · simp only [List.map_cons, List.nodup_cons, List.mem_cons] at nd
      by_cases hx : x.1 = k <;> by_cases hy : y.1 = k
      · exact absurd (Or.inl (hy.trans hx.symm)) nd.1
      · simp [hx, hy]
      · simp [hx, hy]
      · simp [hx, hy]
    · simp
  | trans p1 p2 ih1 ih2 =>
    rw [ih1 nd, ih2 (((p1.map Prod.fst).nodup_iff).mp nd)]

theorem keys_eq_of_pairs {kvs mid : List (String × Json)}
    (h : JEquivPairs kvs mid) :
    kvs.map Prod.fst = mid.map Prod.fst := by
  induction kvs generalizing mid with
  | nil => cases h; rfl
  | cons p t1 ih =>
    cases h with
    | cons hv ht => simp [ih ht]

theorem jlookup_equiv {kvs kvs2 : List (String × Json)}
    (hobj : JEquiv (.obj kvs) (.obj kvs2)) (k : String) :
    Option.Rel JEquiv (jlookup k kvs) (jlookup k kvs2) := by
  cases hobj with
  | obj h12 p nd1 nd2 =>
    have h1 := jlookup_pairs h12 k
    have h2 := jlookup_perm p (by rw [← keys_eq_of_pairs h12]; exact nd1) k
    rw [← h2]
    exact h1

theorem vfield_respects {α : Type} {kvs kvs2 : List (String × Json)}
    (hobj : JEquiv (.obj kvs) (.obj kvs2)) (n : String) {f : Json → V α}
    (hf : ∀ v1 v2, JEquiv v1 v2 → f v1 = f v2) :
    vfield kvs n f = vfield kvs2 n f := by
  have hrel := jlookup_equiv hobj n
  rcases h1 : jlookup n kvs with _ | v1 <;> rcases h2 : jlookup n kvs2 with _ | v2 <;>
    rw [h1, h2] at hrel
  · simp [vfield, h1, h2]
  · cases hrel
  · cases hrel
  · cases hrel with
    | some hr => simp only [vfield, h1, h2, hf v1 v2 hr]

theorem voptional_respects {α : Type} {kvs kvs2 : List (String × Json)}
    (hobj : JEquiv (.obj kvs) (.obj kvs2)) (n : String) {f : Json → V α}
    (hf : ∀ v1 v2, JEquiv v1 v2 → f v1 = f v2) :
    voptional kvs n f = voptional kvs2 n f := by
  have hrel := jlookup_equiv hobj n
  rcases h1 : jlookup n kvs with _ | v1 <;> rcases h2 : jlookup n kvs2 with _ | v2 <;>
    rw [h1, h2] at hrel
  · simp [voptional, h1, h2]
  · cases hrel
  · cases hrel
  · cases hrel with
    | some hr => simp only [voptional, h1, h2, hf v1 v2 hr]

theorem asStr_respects : ∀ v1 v2, JEquiv v1 v2 → asStr v1 = asStr v2 := by
  intro v1 v2 h; cases h <;> rfl

theorem asBool_respects : ∀ v1 v2, JEquiv v1 v2 → asBool v1 = asBool v2 := by
  intro v1 v2 h; cases h <;> rfl

theorem vLit_respects (lit : String) :
    ∀ v1 v2, JEquiv v1 v2 → vLit lit v1 = vLit lit v2 := by
  intro v1 v2 h; cases h <;> rfl

theorem vSha_respects : ∀ v1 v2, JEquiv v1 v2 → vSha v1 = vSha v2 := by
  intro v1 v2 h; cases h <;> rfl

theorem vDatetime_respects : ∀ v1 v2, JEquiv v1 v2 → vDatetime v1 = vDatetime v2 := by
  intro v1 v2 h; cases h <;> rfl

theorem vStatus_respects : ∀ v1 v2, JEquiv v1 v2 → vStatus v1 = vStatus v2 := by
  intro v1 v2 h; cases h <;> rfl

theorem vNonnegInt_respects : ∀ v1 v2, JEquiv v1 v2 → vNonnegInt v1 = vNonnegInt v2 := by
  intro v1 v2 h; cases h <;> rfl

theorem vList_respects {α : Type} {f : Json → V α}
    (hf : ∀ v1 v2, JEquiv v1 v2 → f v1 = f v2) :
    ∀ {xs ys : List Json}, JEquivList xs ys → vList f xs = vList f ys := by
  intro xs
  induction xs with
  | nil => intro ys h; cases h; rfl
  | cons x t ih =>
    intro ys h
    cases h with
    | cons hxy ht => simp only [vList, hf _ _ hxy, ih ht]

theorem vArray_respects {α : Type} {f : Json → V α}
    (hf : ∀ v1 v2, JEquiv v1 v2 → f v1 = f v2) :
    ∀ v1 v2, JEquiv v1 v2 → vArray f v1 = vArray f v2 := by
  intro v1 v2 h
  cases h with
  | arr hxy => simp only [vArray]; exact vList_respects hf hxy
  | null => rfl
  | bool b => rfl
  | num q => rfl
  | str s => rfl
  | obj h12 p nd1 nd2 => rfl

theorem vArtifact_respects : ∀ v1 v2, JEquiv v1 v2 → vArtifact v1 = vArtifact v2 := by
  intro v1 v2 h
  cases h with
  | obj h12 p nd1 nd2 =>
    have hobj := JEquiv.obj h12 p nd1 nd2
    simp only [vArtifact,
      vfield_respects hobj "path" asStr_respects,
      vfield_respects hobj "sha256" vSha_respects,
      vfield_respects hobj "bytes" vNonnegInt_respects,
      vfield_respects hobj "contentType" asStr_respects]
  | null => rfl
  | bool b => rfl
  | num q => rfl
  | str s => rfl
  | arr hxy => rfl

theorem vPolicy_respects : ∀ v1 v2, JEquiv v1 v2 → vPolicy v1 = vPolicy v2 := by
  intro v1 v2 h
  cases h with
  | obj h12 p nd1 nd2 =>
    have hobj := JEquiv.obj h12 p nd1 nd2
    simp only [vPolicy,
      vfield_respects hobj "allowed" asBool_respects,
      vfield_respects hobj "reasons" (vArray_respects asStr_respects)]
  | null => rfl
  | bool b => rfl
  | num q => rfl
  | str s => rfl
  | arr hxy => rfl

theorem vExec_respects : ∀ v1 v2, JEquiv v1 v2 → vExec v1 = vExec v2 := by
  intro v1 v2 h
  cases h with
  | obj h12 p nd1 nd2 =>
    have hobj := JEquiv.obj h12 p nd1 nd2
    simp only [vExec,
      vfield_respects hobj "status" vStatus_respects,
      voptional_respects hobj "error" asStr_respects]
  | null => rfl
  | bool b => rfl
  | num q => rfl
  | str s => rfl
  | arr hxy => rfl

theorem vSolver_respects : ∀ v1 v2, JEquiv v1 v2 → vSolver v1 = vSolver v2 := by
  intro v1 v2 h
  cases h with
  | obj h12 p nd1 nd2 =>
    have hobj := JEquiv.obj h12 p nd1 nd2
    simp only [vSolver,
      vfield_respects hobj "service" (vLit_respects "irsb-solver"),
      vfield_respects hobj "serviceVersion" asStr_respects,
      voptional_respects hobj "gitCommit" asStr_respects]
  | null => rfl
  | bool b => rfl
  | num q => rfl
  | str s => rfl
  | arr hxy => rfl

/-- Schema validation is insensitive to object key insertion order. -/
theorem validateManifest_respects {j1 j2 : Json} (h : JEquiv j1 j2) :
    validateManifest j1 = validateManifest j2 := by
  cases h with
  | obj h12 p nd1 nd2 =>
    have hobj := JEquiv.obj h12 p nd1 nd2
    simp only [validateManifest,
      vfield_respects hobj "manifestVersion" (vLit_respects "0.1.0"),
      vfield_respects hobj "intentId" asStr_respects,
      vfield_respects hobj "runId" asStr_respects,
      vfield_respects hobj "jobType" asStr_respects,
      vfield_respects hobj "createdAt" vDatetime_respects,
      vfield_respects hobj "artifacts" (vArray_respects vArtifact_respects),
      vfield_respects hobj "policyDecision" vPolicy_respects,
      vfield_respects hobj "executionSummary" vExec_respects,
      vfield_respects hobj "solver" vSolver_respects]
  | null => rfl
  | bool b => rfl
  | num q => rfl
  | str s => rfl
  | arr hxy => rfl

/-- C6: determinism of `receiptId` — `normalize(M, h)` computes the receipt
id as the hash of the canonical serialization (keys sorted at every nesting
level, no whitespace) of the four-field record, and two manifest documents
that differ only in object key insertion order (at any nesting level)
validate to the same manifest and hence yield the same `receiptId`. -/
theorem c6_receiptId_deterministic :
    (∀ (h : String → String) (m : SolverReceiptV0) (hs : String),
      (normalizeReceipt h m hs).receiptId
        = h (canonicalJson (.obj
            [("intentId", .str m.intentId),
             ("runId", .str m.runId),
             ("jobType", .str m.jobType),
             ("manifestSha256", .str hs)])))
    ∧ (∀ (h : String → String) (hs : String) (j1 j2 : Json)
        (m1 m2 : SolverReceiptV0), JEquiv j1 j2 →
        validateManifest j1 = .ok m1 → validateManifest j2 = .ok m2 →
        (normalizeReceipt h m1 hs).receiptId = (normalizeReceipt h m2 hs).receiptId) := by
  constructor
  · intro h m hs; rfl
  · intro h hs j1 j2 m1 m2 heq h1 h2
    rw [validateManifest_respects heq, h2] at h1
    injection h1 with h1
    rw [h1]

/-- C6, witness: the canonical-serialization formula at the concrete
manifest, and key-order independence for `wManifestJson` against the
document with its two leading keys swapped, both validating to `wManifest`.
-/
theorem c6_witness :
    ((normalizeReceipt (fun s => "#" ++ s) wManifest "ms").receiptId
      = (fun s => "#" ++ s) (canonicalJson (.obj
          [("intentId", .str wManifest.intentId),
           ("runId", .str wManifest.runId),
           ("jobType", .str wManifest.jobType),
           ("manifestSha256", .str "ms")])))
    ∧ ((normalizeReceipt (fun s => "#" ++ s) wManifest "ms").receiptId
      = (normalizeReceipt (fun s => "#" ++ s) wManifest "ms").receiptId) := by
  have epol : JEquiv (.obj [("allowed", .bool true), ("reasons", .arr [])])
      (.obj [("allowed", .bool true), ("reasons", .arr [])]) :=
    JEquiv.obj
      (JEquivPairs.cons (JEquiv.bool true)
        (JEquivPairs.cons (JEquiv.arr JEquivList.nil) JEquivPairs.nil))
      (List.Perm.refl _) (by decide) (by decide)
  have eexe : JEquiv (.obj [("status", .str "SUCCESS")])
      (.obj [("status", .str "SUCCESS")]) :=
    JEquiv.obj (JEquivPairs.cons (JEquiv.str "SUCCESS") JEquivPairs.nil)
      (List.Perm.refl _) (by decide) (by decide)
  have esol : JEquiv
      (.obj [("service", .str "irsb-solver"), ("serviceVersion", .str "1.0.0")])
      (.obj [("service", .str "irsb-solver"), ("serviceVersion", .str "1.0.0")]) :=
    JEquiv.obj
      (JEquivPairs.cons (JEquiv.str "irsb-solver")
        (JEquivPairs.cons (JEquiv.str "1.0.0") JEquivPairs.nil))
      (List.Perm.refl _) (by decide) (by decide)
  have heq : JEquiv wManifestJson wManifestJsonPerm :=
    JEquiv.obj
      (JEquivPairs.cons (JEquiv.str "0.1.0")
        (JEquivPairs.cons (JEquiv.str "i1")
          (JEquivPairs.cons (JEquiv.str "r1")
            (JEquivPairs.cons (JEquiv.str "diag")
              (JEquivPairs.cons (JEquiv.str "2025-01-15T12:00:00Z")
                (JEquivPairs.cons (JEquiv.arr JEquivList.nil)
                  (JEquivPairs.cons epol
                    (JEquivPairs.cons eexe
                      (JEquivPairs.cons esol JEquivPairs.nil)))))))))
      (List.Perm.swap ("intentId", Json.str "i1")
        ("manifestVersion", Json.str "0.1.0") _)
      (by decide) (by decide)
  exact ⟨c6_receiptId_deterministic.1 (fun s => "#" ++ s) wManifest "ms",
    c6_receiptId_deterministic.2 (fun s => "#" ++ s) "ms"
      wManifestJson wManifestJsonPerm wManifest wManifest heq (by rfl) (by rfl)⟩

set_option maxRecDepth 100000 in
/-- C1: the snapshot id is *not* idempotent across wall-clock times — the
`observedAt` timestamp is part of every signal record, and the signals are
serialized whole into `canonicalJson({agentId, signals})`, the input of the
snapshot-id hash.  Re-running the ingest pipeline on byte-identical content
at `observedAt = 1` and `observedAt = 2` produces different hash inputs (and,
with an injective stand-in hash, different snapshot ids), for an invalid
manifest and for a fully verified one alike — contradicting the source's own
comment "(exclude observedAt for idempotency)". -/
theorem c1_snapshotId_depends_on_observedAt :
    ((ingestReceiptCore wEnvInvalid "agent-1" "not json" "/run" 1).snapshotInput
      ≠ (ingestReceiptCore wEnvInvalid "agent-1" "not json" "/run" 2).snapshotInput)
    ∧ ((ingestReceiptCore wEnvInvalid "agent-1" "not json" "/run" 1).snapshotId
      ≠ (ingestReceiptCore wEnvInvalid "agent-1" "not json" "/run" 2).snapshotId)
    ∧ ((ingestReceiptCore wEnvGood "agent-1" "MB" "/run" 1).snapshotInput
      ≠ (ingestReceiptCore wEnvGood "agent-1" "MB" "/run" 2).snapshotInput)
    ∧ ((ingestReceiptCore wEnvGood "agent-1" "MB" "/run" 1).ok = true) := by
  decide

end Watchtower
